import Mathlib

set_option maxRecDepth 100000

/-!
Verification development for the js-libp2p-webrtc transport core
(SDP synthesis and munging, certificate-hash fingerprint derivation,
Noise prologue construction, and multiaddr filtering).

Byte strings are modelled as `List Nat` (each entry < 256 where it matters),
JS strings as Lean `String` or `List Char`.  Fallible operations return
`Except Err`.  External collaborators (the multiformats multibase decoder
and the multihashes codec) are modelled by executable functions restricted
to the alphabets and code points that the repository exercises.
-/

/-- Error kinds thrown by src/error.js, plus `decodeError` standing for the
opaque exceptions raised by the external multibase / hex decoding libraries. -/
inductive Err where
  | inappropriateMultiaddr (msg : String)
  | invalidArgument (msg : String)
  | unsupportedHashAlgorithm (name : String)
  | unimplemented (msg : String)
  | decodeError (msg : String)
deriving DecidableEq, Repr

deriving instance DecidableEq for Except

/- ### Character and hex utilities (ASCII models of the JS string operations) -/

/-- ASCII model of JS `String.prototype.toUpperCase` on one character. -/
def charUp (c : Char) : Char :=
  if 97 ≤ c.toNat ∧ c.toNat ≤ 122 then Char.ofNat (c.toNat - 32) else c

/-- ASCII model of JS `String.prototype.toUpperCase` on a character list. -/
def listUp (l : List Char) : List Char := l.map charUp

/-- Hex digit character (lowercase), as produced by JS `Number.toString(16)`. -/
def hexDigitChar (n : Nat) : Char :=
  if n < 10 then Char.ofNat (48 + n) else Char.ofNat (87 + n)

/-- Uppercase hex digit character, used to state the expected display form. -/
def upHexDigit (n : Nat) : Char :=
  if n < 10 then Char.ofNat (48 + n) else Char.ofNat (55 + n)

/-- Fuel-driven digit accumulator for `natHexStr` (the fuel is always at
least the number being rendered, so the bail-out case is unreachable). -/
def natHexAux : Nat → Nat → List Char → List Char
  | 0, n, acc => hexDigitChar n :: acc
  | fuel + 1, n, acc =>
    if n < 16 then hexDigitChar n :: acc
    else natHexAux fuel (n / 16) (hexDigitChar (n % 16) :: acc)

/-- JS `n.toString(16)`: base-16 rendering of a natural number, lowercase. -/
def natHexStr (n : Nat) : List Char := natHexAux n n []

/-- JS `byte.toString(16).padStart(2, '0')`. -/
def byteHex (b : Nat) : List Char :=
  let l := natHexStr b
  if l.length < 2 then '0' :: l else l

/-- Decimal digit character. -/
def digitCh (d : Nat) : Char := Char.ofNat (48 + d % 10)

/-- Fuel-driven digit accumulator for `natDecStr`. -/
def natDecAux : Nat → Nat → List Char → List Char
  | 0, n, acc => digitCh n :: acc
  | fuel + 1, n, acc =>
    if n < 10 then digitCh n :: acc
    else natDecAux fuel (n / 10) (digitCh n :: acc)

/-- Decimal rendering of a natural number, as JS template interpolation does. -/
def natDecStr (n : Nat) : List Char := natDecAux n n []

/-- Value of one hex digit character, if any. -/
def hexCharVal? (c : Char) : Option Nat :=
  if 48 ≤ c.toNat ∧ c.toNat ≤ 57 then some (c.toNat - 48)
  else if 97 ≤ c.toNat ∧ c.toNat ≤ 102 then some (c.toNat - 87)
  else if 65 ≤ c.toNat ∧ c.toNat ≤ 70 then some (c.toNat - 55)
  else none

/-- Strict hex decoding of an even-length character list into bytes,
modelling `uint8arrays/from-string` with encoding `hex`. -/
def hexPairsToBytes? : List Char → Option (List Nat)
  | [] => some []
  | [_] => none
  | a :: b :: rest =>
    match hexCharVal? a, hexCharVal? b, hexPairsToBytes? rest with
    | some hi, some lo, some tail => some ((16 * hi + lo) :: tail)
    | _, _, _ => none

/-- Concatenation of a list of character lists. -/
def catLists : List (List Char) → List Char
  | [] => []
  | l :: ls => l ++ catLists ls

/-- JS `str.match(/.{1,2}/g)`: split into chunks of two characters
(the final chunk may have one character). -/
def chunk2 : List Char → List (List Char)
  | [] => []
  | [c] => [[c]]
  | a :: b :: rest => [a, b] :: chunk2 rest

/-- JS `Array.prototype.join(':')` over character-list chunks. -/
def joinColon : List (List Char) → List Char
  | [] => []
  | [l] => l
  | l :: ls => l ++ ':' :: joinColon ls

/-- Split a character list at newline characters (used to talk about the
lines of an SDP document). -/
def splitNl : List Char → List (List Char)
  | [] => [[]]
  | c :: rest =>
    match splitNl rest with
    | [] => if c = '\n' then [[], [c]] else [[c]]
    | h :: t => if c = '\n' then [] :: h :: t else (c :: h) :: t

/-- Whether the second list starts with the first. -/
def listStartsWith : List Char → List Char → Bool
  | [], _ => true
  | _ :: _, [] => false
  | p :: ps, c :: cs => if c = p then listStartsWith ps cs else false

/-- UTF-8 bytes of an ASCII string (model of `uint8arrays/from-string`). -/
def asciiBytes (s : String) : List Nat := s.data.map Char.toNat

/- ### Regex-replace model for `munge` -/

/-- Drop an expected pattern from the front of a list, if it is there. -/
def dropPref : List Char → List Char → Option (List Char)
  | [], s => some s
  | _ :: _, [] => none
  | p :: ps, c :: cs => if c = p then dropPref ps cs else none

/-- The character class `[^\n]` of the munge regexes, as a Boolean predicate. -/
def neNl (ch : Char) : Bool := ch ≠ '\n'

/-- Match `tag ++ [^\n]* ++ '\n'` at the front of `s`; on success return the
`[^\n]*` content and the remainder after the trailing newline.  This is the
part of the regex `\na=…:[^\n]*\n` that follows the leading newline. -/
def lineMatch (tag : List Char) (s : List Char) : Option (List Char × List Char) :=
  match dropPref tag s with
  | none => none
  | some r =>
    match r.dropWhile neNl with
    | '\n' :: tail => some (r.takeWhile neNl, tail)
    | _ => none

/-- Scanning core of the first-match replacement: replace the first
(leftmost) newline-delimited `<tag>` line with the replacement text taken
verbatim, leaving everything else unchanged; the string is returned
unchanged when there is no match.  `replaceFirstLine` below adds the
`GetSubstitution` handling of `$` sequences and coincides with this function
whenever the replacement contains no dollar sign. -/
def replFirst (tag u : List Char) : List Char → List Char
  | [] => []
  | c :: rest =>
    if c = '\n' then
      match lineMatch tag rest with
      | some (_, tail) => '\n' :: (tag ++ (u ++ '\n' :: tail))
      | none => c :: replFirst tag u rest
    else c :: replFirst tag u rest

/-- Locate the first newline-delimited `<tag>` line: returns the text before
its leading newline, the `[^\n]*` content, and the text after its trailing
newline. -/
def findSplit (tag : List Char) : List Char → Option (List Char × List Char × List Char)
  | [] => none
  | c :: rest =>
    if c = '\n' then
      match lineMatch tag rest with
      | some (content, tail) => some ([], content, tail)
      | none => (findSplit tag rest).map (fun p => ('\n' :: p.1, p.2.1, p.2.2))
    else (findSplit tag rest).map (fun p => (c :: p.1, p.2.1, p.2.2))

/-- ECMAScript `GetSubstitution` for a string replacement against a regex
with no capture groups: `$$` yields a dollar sign, `$&` the matched text,
`$` + backquote the text before the match, `$` + single quote the text after
the match; every other `$` sequence (including `$n` for absent captures and
a trailing `$`) is kept verbatim.  The backquote and quote characters are
written by code point (96 and 39). -/
def expandDollar (matched before after : List Char) : List Char → List Char
  | [] => []
  | c :: rest =>
    if c = '$' then
      match rest with
      | [] => ['$']
      | c2 :: rest2 =>
        if c2 = '$' then '$' :: expandDollar matched before after rest2
        else if c2 = '&' then matched ++ expandDollar matched before after rest2
        else if c2 = Char.ofNat 96 then before ++ expandDollar matched before after rest2
        else if c2 = Char.ofNat 39 then after ++ expandDollar matched before after rest2
        else '$' :: c2 :: expandDollar matched before after rest2
    else c :: expandDollar matched before after rest

/-- JS `str.replace(/\n<tag>[^\n]*\n/, '\n' + <tag> + u + '\n')`: replace the
first (leftmost) newline-delimited `<tag>` line, feeding the replacement
string through `GetSubstitution` (the `$` sequences can only occur inside
`u`, since the surrounding literal parts contain no dollar sign, and a `$`
ending `u` is followed by the literal newline, which forms no special
sequence — so expanding `u` alone is exact); the string is returned
unchanged when there is no match. -/
def replaceFirstLine (tag u : List Char) (s : List Char) : List Char :=
  match findSplit tag s with
  | none => s
  | some (A, content, tail) =>
    A ++ ('\n' :: (tag ++ (expandDollar ('\n' :: (tag ++ (content ++ ['\n'])))
      A tail u ++ ['\n']))) ++ tail

/- ### Multibase / multihash models (external multiformats + multihashes libs) -/

/-- Unsigned-varint encoding, restricted to values below 2^14 (covers every
multihash code and digest length used by this repository). -/
def varintEncode (n : Nat) : List Nat :=
  if n < 128 then [n] else [n % 128 + 128, n / 128]

/-- Unsigned-varint decoding, restricted to at most two bytes. -/
def varintDecode? : List Nat → Option (Nat × List Nat)
  | [] => none
  | b :: rest =>
    if b < 128 then some (b, rest)
    else
      match rest with
      | [] => none
      | b2 :: rest2 => if b2 < 128 then some ((b - 128) + 128 * b2, rest2) else none

/-- The relevant rows of the multihash name table of the `multihashes` library. -/
def mhNames : List (String × Nat) :=
  [("identity", 0x00), ("sha1", 0x11), ("sha2-256", 0x12), ("sha2-512", 0x13),
   ("sha3-512", 0x14), ("md5", 0xd5)]

/-- Algorithm name for a multihash code. -/
def mhCodeName? (c : Nat) : Option String :=
  (mhNames.find? (fun row => row.2 = c)).map (fun row => row.1)

/-- `multihashes.encode digest code`: varint code, varint digest length, digest. -/
def mhEncode (code : Nat) (digest : List Nat) : List Nat :=
  varintEncode code ++ (varintEncode digest.length ++ digest)

/-- `multihashes.decode`: algorithm name and digest bytes, checking that the
declared digest length matches the actual one. -/
def mhDecode? (bs : List Nat) : Option (String × List Nat) :=
  match varintDecode? bs with
  | none => none
  | some (code, r1) =>
    match varintDecode? r1 with
    | none => none
    | some (len, digest) =>
      match mhCodeName? code with
      | none => none
      | some name => if digest.length = len then some (name, digest) else none

/-- Multibase encoding in base16 (prefix character `f`, lowercase hex). -/
def mbEncode (bs : List Nat) : String :=
  String.mk ('f' :: catLists (bs.map byteHex))

/-- Model of the composite `mbdecoder` built in src (the or-combination of all
multiformats base decoders), restricted to the base16 alphabet; unknown
prefixes are reported as the opaque exception the library would throw. -/
def mbDecode (s : String) : Except Err (List Nat) :=
  match s.data with
  | 'f' :: rest =>
    match hexPairsToBytes? rest with
    | some bs => .ok bs
    | none => .error (.decodeError "invalid base16 payload")
  | _ => .error (.decodeError "unsupported multibase prefix")

/- ### Multiaddr model -/

/-- Shallow model of a parsed `@multiformats/multiaddr` value: the record of
the observations the transport makes of it (`stringTuples()`, `protoNames()`,
`protoCodes()`, `toOptions()`, `getPeerId()`, `toString()`). -/
structure Multiaddr where
  stringTuples : List (Nat × String)
  protoNames : List String
  protoCodes : List Nat
  host : String
  port : Nat
  peerId : Option String
  toStr : String
deriving DecidableEq, Repr

/-- The certificate-hash protocol code. -/
def CERTHASH_CODE : Nat := 466

/-- The WebRTC protocol code. -/
def WEBRTC_CODE : Nat := 280

/-- `ipv ma`: first protocol name starting with "ip", uppercased; defaults to
"IP6" (after a logged warning) when none is present. -/
def ipv (ma : Multiaddr) : String :=
  match ma.protoNames.find? (fun proto => listStartsWith "ip".data proto.data) with
  | some proto => String.mk (listUp proto.data)
  | none => "IP6"

/-- `ip ma`: the host from `ma.toOptions()`. -/
def ip (ma : Multiaddr) : String := ma.host

/-- `port ma`: the port from `ma.toOptions()`. -/
def port (ma : Multiaddr) : Nat := ma.port

/-- `certhash ma`: value of the first certhash tuple; throws
`inappropriateMultiaddr` when there is none (or the value is falsy). -/
def certhash (ma : Multiaddr) : Except Err String :=
  match ((ma.stringTuples.filter (fun tup => tup.1 = CERTHASH_CODE)).map (fun tup => tup.2)).head? with
  | some v =>
    if v = "" then
      .error (.inappropriateMultiaddr ("Couldn't find a certhash component of multiaddr:" ++ ma.toStr))
    else .ok v
  | none =>
    .error (.inappropriateMultiaddr ("Couldn't find a certhash component of multiaddr:" ++ ma.toStr))

/-- The lowercase SDP tag for an allow-listed multihash algorithm name
(the `switch` in `certhashToFingerprint`). -/
def algTagOf : String → Option (List Char)
  | "md5" => some "md5".data
  | "sha2-256" => some "sha-256".data
  | "sha2-512" => some "sha-512".data
  | _ => none

/-- `certhashToFingerprint ma`: multibase- and multihash-decode the certhash
value, map the algorithm through the allow-list, and return the SDP display
string together with the lowercase hex rendering of the digest (the second
component is the hex string `fp`, exactly as the source returns it). -/
def certhashToFingerprint (ma : Multiaddr) : Except Err (String × String) :=
  match certhash ma with
  | .error e => .error e
  | .ok v =>
    match mbDecode v with
    | .error e => .error e
    | .ok mbdecoded =>
      match mhDecode? mbdecoded with
      | none => .error (.decodeError "multihash decode failed")
      | some (name, digest) =>
        match algTagOf name with
        | none => .error (.unsupportedHashAlgorithm name)
        | some tagChars =>
          let fp := digest.foldl (fun s b => s ++ byteHex b) []
          if fp = [] then .error (.decodeError "TypeError: fp.match(...) is null")
          else
            .ok (String.mk (listUp tagChars ++ ' ' :: listUp (joinColon (chunk2 fp))),
                 String.mk fp)

/- ### SDP synthesis -/

/-- The lines of the SDP template literal in `ma2sdp`, in order, each without
its terminating newline (the final `a=candidate` line keeps the `\r` that
precedes the template's closing `\r\n`). -/
def sdpLinesModel (ipver host portStr ufrag certfp : List Char) : List (List Char) :=
  [ "v=0".data,
    "o=- 0 0 IN ".data ++ (ipver ++ ' ' :: host),
    "s=-".data,
    "c=IN ".data ++ (ipver ++ ' ' :: host),
    "t=0 0".data,
    "a=ice-lite".data,
    "m=application ".data ++ (portStr ++ " UDP/DTLS/SCTP webrtc-datachannel".data),
    "a=mid:0".data,
    "a=setup:passive".data,
    "a=ice-ufrag:".data ++ ufrag,
    "a=ice-pwd:".data ++ ufrag,
    "a=fingerprint:".data ++ certfp,
    "a=sctp-port:5000".data,
    "a=max-message-size:100000".data,
    "a=candidate:1467250027 1 UDP 1467250027 ".data ++ (host ++ ' ' :: (portStr ++ " typ host\r".data)) ]

/-- Join lines, terminating each with a newline (matching the template, whose
last visible characters are `typ host\r\n`). -/
def joinNlTerm : List (List Char) → List Char
  | [] => []
  | l :: ls => l ++ '\n' :: joinNlTerm ls

/-- `ma2sdp ma ufrag`: render the complete SDP answer text. -/
def ma2sdp (ma : Multiaddr) (ufrag : String) : Except Err String :=
  match certhashToFingerprint ma with
  | .error e => .error e
  | .ok certfp =>
    .ok (String.mk (joinNlTerm (sdpLinesModel (ipv ma).data (ip ma).data
          (natDecStr (port ma)) ufrag.data certfp.1.data)))

/-- An `RTCSessionDescriptionInit`: a role tag and an optional SDP body. -/
structure SessionDescription where
  type : String
  sdp : Option String
deriving DecidableEq, Repr

/-- `fromMultiAddr ma ufrag`: the synthesized answer description. -/
def fromMultiAddr (ma : Multiaddr) (ufrag : String) : Except Err SessionDescription :=
  match ma2sdp ma ufrag with
  | .error e => .error e
  | .ok s => .ok { type := "answer", sdp := some s }

/-- The characters of `a=ice-ufrag:`. -/
def uTagChars : List Char := ['a', '=', 'i', 'c', 'e', '-', 'u', 'f', 'r', 'a', 'g', ':']

/-- The characters of `a=ice-pwd:`. -/
def pTagChars : List Char := ['a', '=', 'i', 'c', 'e', '-', 'p', 'w', 'd', ':']

/-- The characters of `a=fingerprint:`. -/
def fpTagChars : List Char :=
  ['a', '=', 'f', 'i', 'n', 'g', 'e', 'r', 'p', 'r', 'i', 'n', 't', ':']

/-- The two successive first-match replacements performed by `munge` on the
SDP text: first the `a=ice-ufrag` line, then the `a=ice-pwd` line, each with
full `GetSubstitution` replacement semantics. -/
def mungeSdp (s : List Char) (ufrag : List Char) : List Char :=
  replaceFirstLine pTagChars ufrag (replaceFirstLine uTagChars ufrag s)

/-- `munge desc ufrag`: rewrite the first ICE username-fragment and password
lines of the description's SDP; throws `invalidArgument` when the SDP body is
falsy (absent or empty). -/
def munge (desc : SessionDescription) (ufrag : String) : Except Err SessionDescription :=
  match desc.sdp with
  | some s =>
    if s = "" then .error (.invalidArgument "Can't munge a missing SDP")
    else .ok { desc with sdp := some (String.mk (mungeSdp s.data ufrag.data)) }
  | none => .error (.invalidArgument "Can't munge a missing SDP")

/- ### Transport: filter and Noise prologue -/

/-- `validMa`: protocol codes include WebRTC and certhash, and a peer id is
present. -/
def validMa (ma : Multiaddr) : Bool :=
  ma.protoCodes.contains WEBRTC_CODE && ma.protoCodes.contains CERTHASH_CODE
    && ma.peerId.isSome

/-- `WebRTCTransport.filter`: keep the valid multiaddrs. -/
def transportFilter (multiaddrs : List Multiaddr) : List Multiaddr :=
  multiaddrs.filter validMa

/-- One fingerprint reported by `RTCCertificate.getFingerprints()`. -/
structure RTCFingerprint where
  algorithm : String
  value : String
deriving DecidableEq, Repr

/-- A local certificate handle. -/
structure RTCCertificate where
  fingerprints : List RTCFingerprint
deriving DecidableEq, Repr

/-- The part of `RTCPeerConnection.getConfiguration()` the prologue builder
reads. -/
structure PeerConnectionConfig where
  certificates : List RTCCertificate
deriving DecidableEq, Repr

/-- `generateNoisePrologue pc ma` (current draft, src/unnamed/part_000):
take the first fingerprint of the first local certificate, strip the colons
from its hex value and decode it, require algorithm `sha-256`, wrap the digest
in a sha2-256 multihash, decode the remote certhash, and concatenate
`"libp2p-webrtc-noise:" ++ local ++ remote` — in that fixed role order. -/
def generateNoisePrologue (pc : PeerConnectionConfig) (ma : Multiaddr) : Except Err (List Nat) :=
  if pc.certificates.length = 0 then .error (.invalidArgument "no local certificate")
  else
    match pc.certificates.head? with
    | none => .error (.invalidArgument "no fingerprint on local certificate")
    | some localCert =>
      match localCert.fingerprints.head? with
      | none => .error (.invalidArgument "no fingerprint on local certificate")
      | some localFingerprint =>
        match hexPairsToBytes? (localFingerprint.value.data.filter (fun c => c ≠ ':')) with
        | none => .error (.decodeError "invalid hex in fingerprint value")
        | some localFpArray =>
          if localFingerprint.algorithm ≠ "sha-256" then
            .error (.unsupportedHashAlgorithm
              (if localFingerprint.algorithm = "" then "none" else localFingerprint.algorithm))
          else
            match certhash ma with
            | .error e => .error e
            | .ok ch =>
              match mbDecode ch with
              | .error e => .error e
              | .ok remote =>
                .ok (asciiBytes "libp2p-webrtc-noise:" ++ (mhEncode 0x12 localFpArray ++ remote))

/- ### Predicates used in statements -/

/-- No newline character occurs in the list. -/
def noNl (l : List Char) : Prop := ∀ c ∈ l, c ≠ '\n'

instance (l : List Char) : Decidable (noNl l) := by
  unfold noNl
  infer_instance

/-- No dollar-sign character occurs in the list (so the replacement string
triggers no `GetSubstitution` expansion). -/
def noDollar (l : List Char) : Prop := ∀ c ∈ l, c ≠ '$'

instance (l : List Char) : Decidable (noDollar l) := by
  unfold noDollar
  infer_instance

/- ### Concrete instances used in the claim theorems -/

/-- A multiaddr carrying the given string as its single certhash component. -/
def mkCerthashMa (v : String) : Multiaddr :=
  { stringTuples := [(4, "1.2.3.4"), (273, "1234"), (280, ""), (466, v)],
    protoNames := ["ip4", "udp", "webrtc", "certhash"],
    protoCodes := [4, 273, 280, 466],
    host := "1.2.3.4", port := 1234, peerId := none,
    toStr := "/ip4/1.2.3.4/udp/1234/webrtc/certhash/" ++ v }

/-- A multiaddr with no certhash component. -/
def maNoCerthash : Multiaddr :=
  { stringTuples := [(4, "1.2.3.4"), (273, "1234"), (280, "")],
    protoNames := ["ip4", "udp", "webrtc"],
    protoCodes := [4, 273, 280],
    host := "1.2.3.4", port := 1234, peerId := none,
    toStr := "/ip4/1.2.3.4/udp/1234/webrtc" }

/-- Multiaddr whose certhash is a sha1 multihash (outside the allow-list). -/
def maSha1 : Multiaddr := mkCerthashMa (mbEncode (mhEncode 0x11 [0xaa, 0xbb]))

/-- Multiaddr whose certhash is an md5 multihash of digest `ab cd`. -/
def maMd5Small : Multiaddr := mkCerthashMa (mbEncode (mhEncode 0xd5 [0xab, 0xcd]))

/-- Multiaddr whose certhash is a sha2-256 multihash of digest `ab cd`. -/
def maSha256Small : Multiaddr := mkCerthashMa (mbEncode (mhEncode 0x12 [0xab, 0xcd]))

/-- Multiaddr whose certhash is the md5 multihash of sixteen `0x61` bytes. -/
def maMd5SixteenA : Multiaddr :=
  mkCerthashMa (mbEncode (mhEncode 0xd5 (List.replicate 16 0x61)))

/-- Multihash-wrapped fingerprint byte strings with `prologueF1 < prologueF2`
in byte-lexicographic order. -/
def prologueF1 : List Nat := mhEncode 0x12 [0, 1]

/-- See `prologueF1`. -/
def prologueF2 : List Nat := mhEncode 0x12 [0, 2]

/-- Peer-connection configuration whose local certificate fingerprint has
digest `00 01` (so its multihash wrapping is `prologueF1`). -/
def pcF1 : PeerConnectionConfig :=
  { certificates := [{ fingerprints := [{ algorithm := "sha-256", value := "00:01" }] }] }

/-- Peer-connection configuration whose local certificate fingerprint has
digest `00 02` (so its multihash wrapping is `prologueF2`). -/
def pcF2 : PeerConnectionConfig :=
  { certificates := [{ fingerprints := [{ algorithm := "sha-256", value := "00:02" }] }] }

/-- Multiaddr whose certhash decodes to `prologueF1`. -/
def maF1 : Multiaddr := mkCerthashMa (mbEncode prologueF1)

/-- Multiaddr whose certhash decodes to `prologueF2`. -/
def maF2 : Multiaddr := mkCerthashMa (mbEncode prologueF2)

/-- The peer id string used by the filter test vectors. -/
def peerIdStr : String := "12D3KooWGDMwwqrpcYKpKCgxuKT2NfqPqa94QnkoBBpqvCaiCzWd"

/-- Filter vector 1: `/ip4/1.2.3.4/udp/1234/webrtc/certhash/H` (no peer id). -/
def filterMa1 : Multiaddr := mkCerthashMa (mbEncode (mhEncode 0x12 [0xab, 0xcd]))

/-- Filter vector 2: vector 1 plus `/p2p/ID`. -/
def filterMa2 : Multiaddr :=
  { stringTuples := filterMa1.stringTuples ++ [(421, peerIdStr)],
    protoNames := ["ip4", "udp", "webrtc", "certhash", "p2p"],
    protoCodes := [4, 273, 280, 466, 421],
    host := "1.2.3.4", port := 1234, peerId := some peerIdStr,
    toStr := filterMa1.toStr ++ "/p2p/" ++ peerIdStr }

/-- Filter vector 3: `/ip4/1.2.3.4/udp/1234/webrtc/p2p/ID` (no certhash). -/
def filterMa3 : Multiaddr :=
  { stringTuples := [(4, "1.2.3.4"), (273, "1234"), (280, ""), (421, peerIdStr)],
    protoNames := ["ip4", "udp", "webrtc", "p2p"],
    protoCodes := [4, 273, 280, 421],
    host := "1.2.3.4", port := 1234, peerId := some peerIdStr,
    toStr := "/ip4/1.2.3.4/udp/1234/webrtc/p2p/" ++ peerIdStr }

/-- Filter vector 4: `/ip4/1.2.3.4/udp/1234/certhash/H/p2p/ID` (no webrtc). -/
def filterMa4 : Multiaddr :=
  { stringTuples := [(4, "1.2.3.4"), (273, "1234"),
      (466, mbEncode (mhEncode 0x12 [0xab, 0xcd])), (421, peerIdStr)],
    protoNames := ["ip4", "udp", "certhash", "p2p"],
    protoCodes := [4, 273, 466, 421],
    host := "1.2.3.4", port := 1234, peerId := some peerIdStr,
    toStr := "/ip4/1.2.3.4/udp/1234/certhash/H/p2p/" ++ peerIdStr }

/-- Session description used in the munge counterexample. -/
def mungeCexDesc : SessionDescription :=
  { type := "offer", sdp := some "x\na=ice-ufrag:A\na=ice-pwd:B\ny" }

/-- Session description whose body has no newline-delimited credential lines
(both credential lines sit at the start of the body or lack a trailing
newline). -/
def mungeNoLineDesc : SessionDescription :=
  { type := "offer", sdp := some "a=ice-ufrag:x\na=ice-pwd:y" }

/-- Session description used in the munge witness. -/
def mungeWitnessDesc : SessionDescription :=
  { type := "offer", sdp := some "v=0\na=ice-ufrag:old\na=ice-pwd:old2\nz=9\n" }

/-- The fingerprint allow-list with display tags, multihash codes and digest
lengths: md5 (16 bytes), sha2-256 (32 bytes), sha2-512 (64 bytes). -/
def fingerprintAllowTriples : List (String × String × Nat × Nat) :=
  [("md5", "MD5", 0xd5, 16), ("sha2-256", "SHA-256", 0x12, 32), ("sha2-512", "SHA-512", 0x13, 64)]

/- ### Helper lemmas: first-match line replacement -/

theorem noNl_append {a b : List Char} (ha : noNl a) (hb : noNl b) : noNl (a ++ b) := by
  intro c hc
  rcases List.mem_append.mp hc with h | h
  · exact ha c h
  · exact hb c h

theorem noNl_of_not_mem {l : List Char} (h : '\n' ∉ l) : noNl l := by
  intro c hc hEq
  exact h (hEq ▸ hc)

theorem dropPref_sound : ∀ {t s r : List Char}, dropPref t s = some r → s = t ++ r := by
  intro t
  induction t with
  | nil =>
    intro s r h
    simp [dropPref] at h
    simp [h]
  | cons p ps ih =>
    intro s r h
    cases s with
    | nil => simp [dropPref] at h
    | cons c cs =>
      by_cases hc : c = p
      · subst hc
        simp [dropPref] at h
        simp [ih h]
      · simp [dropPref, hc] at h

theorem dropPref_append_self (t r : List Char) : dropPref t (t ++ r) = some r := by
  induction t with
  | nil => rfl
  | cons p ps ih => simp [dropPref, ih]

theorem neNl_eq_true {c : Char} : neNl c = true ↔ c ≠ '\n' := by
  simp [neNl]

theorem neNl_nl : neNl '\n' = false := by
  simp [neNl]

theorem takeWhile_noNl_append {u : List Char} (hu : noNl u) (z : List Char) :
    (u ++ '\n' :: z).takeWhile neNl = u := by
  induction u with
  | nil =>
    rw [List.nil_append, List.takeWhile_cons, neNl_nl]
    simp
  | cons c cs ih =>
    have hc : c ≠ '\n' := hu c (by simp)
    have hcs : noNl cs := fun x hx => hu x (by simp [hx])
    rw [List.cons_append, List.takeWhile_cons, if_pos (neNl_eq_true.mpr hc), ih hcs]

theorem dropWhile_noNl_append {u : List Char} (hu : noNl u) (z : List Char) :
    (u ++ '\n' :: z).dropWhile neNl = '\n' :: z := by
  induction u with
  | nil =>
    rw [List.nil_append, List.dropWhile_cons, neNl_nl]
    simp
  | cons c cs ih =>
    have hc : c ≠ '\n' := hu c (by simp)
    have hcs : noNl cs := fun x hx => hu x (by simp [hx])
    rw [List.cons_append, List.dropWhile_cons, if_pos (neNl_eq_true.mpr hc), ih hcs]

theorem lineMatch_eq_aux {t s r : List Char} (hd : dropPref t s = some r) :
    lineMatch t s = match r.dropWhile neNl with
      | '\n' :: tail => some (r.takeWhile neNl, tail)
      | _ => none := by
  unfold lineMatch
  rw [hd]

theorem lineMatch_sound {t s c tail : List Char}
    (h : lineMatch t s = some (c, tail)) :
    s = t ++ (c ++ '\n' :: tail) ∧ noNl c := by
  unfold lineMatch at h
  split at h
  · simp at h
  · next r hd =>
    split at h
    · next tl hw =>
      simp only [Option.some.injEq, Prod.mk.injEq] at h
      obtain ⟨hc, htl⟩ := h
      refine ⟨?_, ?_⟩
      · have hs := dropPref_sound hd
        have hr := @List.takeWhile_append_dropWhile Char neNl r
        rw [← hc, ← htl]
        calc s = t ++ r := hs
          _ = t ++ (r.takeWhile neNl ++ r.dropWhile neNl) := by rw [hr]
          _ = t ++ (r.takeWhile neNl ++ '\n' :: tl) := by rw [hw]
      · intro ch hch hEq
        rw [← hc] at hch
        have := List.mem_takeWhile_imp hch
        rw [hEq, neNl_nl] at this
        exact Bool.false_ne_true this
    · simp at h

theorem lineMatch_canonical {t u : List Char} (hu : noNl u) (z : List Char) :
    lineMatch t (t ++ (u ++ '\n' :: z)) = some (u, z) := by
  rw [lineMatch_eq_aux (dropPref_append_self t (u ++ '\n' :: z))]
  rw [dropWhile_noNl_append hu, takeWhile_noNl_append hu]
  rfl

theorem lineMatch_cons (p : Char) (ps : List Char) (c : Char) (cs : List Char) :
    lineMatch (p :: ps) (c :: cs) = if c = p then lineMatch ps cs else none := by
  unfold lineMatch
  rw [show dropPref (p :: ps) (c :: cs) = if c = p then dropPref ps cs else none from rfl]
  by_cases hc : c = p
  · rw [if_pos hc, if_pos hc]
  · rw [if_neg hc, if_neg hc]

theorem dropWhile_mem_nl {r : List Char} (h : '\n' ∈ r) :
    ∃ tl, r.dropWhile neNl = '\n' :: tl := by
  induction r with
  | nil => simp at h
  | cons c cs ih =>
    by_cases hc : c = '\n'
    · subst hc
      refine ⟨cs, ?_⟩
      rw [List.dropWhile_cons, neNl_nl]
      simp
    · have hmem : '\n' ∈ cs := by
        rcases List.mem_cons.mp h with h1 | h1
        · exact absurd h1.symm hc
        · exact h1
      obtain ⟨tl, htl⟩ := ih hmem
      refine ⟨tl, ?_⟩
      rw [List.dropWhile_cons, if_pos (neNl_eq_true.mpr hc), htl]

theorem lineMatch_nil_isSome {r : List Char} (h : '\n' ∈ r) :
    (lineMatch [] r).isSome = true := by
  obtain ⟨tl, htl⟩ := dropWhile_mem_nl h
  rw [lineMatch_eq_aux (show dropPref [] r = some r from rfl), htl]
  rfl

theorem lineMatch_junction {t : List Char} (ht : noNl t) (A Z Z' : List Char) :
    (lineMatch t (A ++ '\n' :: Z)).isSome = (lineMatch t (A ++ '\n' :: Z')).isSome := by
  induction A generalizing t with
  | nil =>
    cases t with
    | nil =>
      rw [lineMatch_nil_isSome (by simp), lineMatch_nil_isSome (by simp)]
    | cons p ps =>
      have hp : ('\n' : Char) ≠ p := fun hEq => ht p (by simp) hEq.symm
      simp only [List.nil_append, lineMatch_cons, if_neg hp]
  | cons a A2 ih =>
    cases t with
    | nil =>
      rw [lineMatch_nil_isSome (by simp), lineMatch_nil_isSome (by simp)]
    | cons p ps =>
      simp only [List.cons_append, lineMatch_cons]
      by_cases hap : a = p
      · have hps : noNl ps := fun x hx => ht x (by simp [hx])
        simp only [if_pos hap]
        exact ih hps
      · simp [hap]

theorem replFirst_nil (tag u : List Char) : replFirst tag u [] = [] := rfl

theorem replFirst_cons_nl_some {tag u rest c0 tail : List Char}
    (h : lineMatch tag rest = some (c0, tail)) :
    replFirst tag u ('\n' :: rest) = '\n' :: (tag ++ (u ++ '\n' :: tail)) := by
  unfold replFirst
  rw [if_pos rfl, h]

theorem replFirst_cons_nl_none {tag u rest : List Char}
    (h : lineMatch tag rest = none) :
    replFirst tag u ('\n' :: rest) = '\n' :: replFirst tag u rest := by
  conv_lhs => unfold replFirst
  rw [if_pos rfl, h]

theorem replFirst_cons_ne {tag u rest : List Char} {c : Char} (hc : c ≠ '\n') :
    replFirst tag u (c :: rest) = c :: replFirst tag u rest := by
  conv_lhs => unfold replFirst
  rw [if_neg hc]

theorem replFirst_append_noNl {tag u p : List Char} (hp : noNl p) (y : List Char) :
    replFirst tag u (p ++ y) = p ++ replFirst tag u y := by
  induction p with
  | nil => simp
  | cons c cs ih =>
    have hc : c ≠ '\n' := hp c (by simp)
    have hcs : noNl cs := fun x hx => hp x (by simp [hx])
    rw [List.cons_append, replFirst_cons_ne hc, ih hcs, List.cons_append]

theorem replFirst_nl_head (tag u : List Char) (y : List Char) :
    ∃ z, replFirst tag u ('\n' :: y) = '\n' :: z := by
  cases hm : lineMatch tag y with
  | some pr =>
    obtain ⟨c0, tail⟩ := pr
    exact ⟨tag ++ (u ++ '\n' :: tail), replFirst_cons_nl_some hm⟩
  | none => exact ⟨replFirst tag u y, replFirst_cons_nl_none hm⟩

theorem replFirst_noNl_fix {tag u y : List Char} (hy : noNl y) :
    replFirst tag u y = y := by
  induction y with
  | nil => rfl
  | cons c cs ih =>
    have hc : c ≠ '\n' := hy c (by simp)
    have hcs : noNl cs := fun x hx => hy x (by simp [hx])
    rw [replFirst_cons_ne hc, ih hcs]

theorem option_none_of_isSome_eq {α β : Type} {o : Option α} {o2 : Option β}
    (h : o.isSome = o2.isSome) (hn : o = none) : o2 = none := by
  subst hn
  cases o2 with
  | none => rfl
  | some v => simp at h

theorem lineMatch_none_replFirst {t g u y : List Char} (ht : noNl t)
    (h : lineMatch t y = none) : lineMatch t (replFirst g u y) = none := by
  by_cases hy : '\n' ∈ y
  · obtain ⟨y1, hy1⟩ := @dropWhile_mem_nl y hy
    have hy0 : noNl (y.takeWhile neNl) := by
      intro ch hch hEq
      have := List.mem_takeWhile_imp hch
      rw [hEq, neNl_nl] at this
      exact Bool.false_ne_true this
    have hdec : y = y.takeWhile neNl ++ '\n' :: y1 := by
      conv_lhs => rw [← @List.takeWhile_append_dropWhile Char neNl y]
      rw [hy1]
    obtain ⟨z, hz⟩ := replFirst_nl_head g u y1
    have hrw : replFirst g u y = y.takeWhile neNl ++ '\n' :: z := by
      conv_lhs => rw [hdec]
      rw [replFirst_append_noNl hy0, hz]
    rw [hrw]
    have hj := lineMatch_junction ht (y.takeWhile neNl) y1 z
    rw [hdec] at h
    exact option_none_of_isSome_eq hj h
  · have hyn : noNl y := fun c hc hEq => hy (hEq ▸ hc)
    rw [replFirst_noNl_fix hyn]
    exact h

theorem replFirst_idem {tag u : List Char} (htag : noNl tag) (hu : noNl u) (s : List Char) :
    replFirst tag u (replFirst tag u s) = replFirst tag u s := by
  induction s with
  | nil => rfl
  | cons c rest ih =>
    by_cases hc : c = '\n'
    · subst hc
      cases hm : lineMatch tag rest with
      | some pr =>
        obtain ⟨c0, tail⟩ := pr
        rw [replFirst_cons_nl_some hm, replFirst_cons_nl_some (lineMatch_canonical hu tail)]
      | none =>
        rw [replFirst_cons_nl_none hm,
          replFirst_cons_nl_none (lineMatch_none_replFirst htag hm), ih]
    · rw [replFirst_cons_ne hc, replFirst_cons_ne hc, ih]

theorem cons_tail_eq {c : Char} {xs ys : List Char} (h : c :: xs = c :: ys) : xs = ys := by
  injection h

theorem findSplit_cons_nl_some {tag rest c0 tl : List Char}
    (h : lineMatch tag rest = some (c0, tl)) :
    findSplit tag ('\n' :: rest) = some ([], c0, tl) := by
  conv_lhs => unfold findSplit
  rw [if_pos rfl, h]

theorem findSplit_cons_nl_none {tag rest : List Char}
    (h : lineMatch tag rest = none) :
    findSplit tag ('\n' :: rest) =
      (findSplit tag rest).map (fun p => ('\n' :: p.1, p.2.1, p.2.2)) := by
  conv_lhs => unfold findSplit
  rw [if_pos rfl, h]

theorem findSplit_cons_ne {tag rest : List Char} {c : Char} (hc : c ≠ '\n') :
    findSplit tag (c :: rest) =
      (findSplit tag rest).map (fun p => (c :: p.1, p.2.1, p.2.2)) := by
  conv_lhs => unfold findSplit
  rw [if_neg hc]

theorem findSplit_none_replFirst {tag u s : List Char}
    (h : findSplit tag s = none) : replFirst tag u s = s := by
  induction s with
  | nil => rfl
  | cons c rest ih =>
    by_cases hc : c = '\n'
    · subst hc
      cases hm : lineMatch tag rest with
      | some pr =>
        obtain ⟨c0, tl⟩ := pr
        rw [findSplit_cons_nl_some hm] at h
        simp at h
      | none =>
        rw [findSplit_cons_nl_none hm] at h
        simp only [Option.map_eq_none'] at h
        rw [replFirst_cons_nl_none hm, ih h]
    · rw [findSplit_cons_ne hc] at h
      simp only [Option.map_eq_none'] at h
      rw [replFirst_cons_ne hc, ih h]

theorem findSplit_some_spec {tag s A content tail : List Char} (u : List Char)
    (h : findSplit tag s = some (A, content, tail)) :
    s = A ++ '\n' :: (tag ++ (content ++ '\n' :: tail)) ∧ noNl content ∧
      replFirst tag u s = A ++ '\n' :: (tag ++ (u ++ '\n' :: tail)) := by
  induction s generalizing A with
  | nil => simp [findSplit] at h
  | cons c rest ih =>
    by_cases hc : c = '\n'
    · subst hc
      cases hm : lineMatch tag rest with
      | some pr =>
        obtain ⟨c0, tl⟩ := pr
        rw [findSplit_cons_nl_some hm] at h
        simp only [Option.some.injEq, Prod.mk.injEq] at h
        obtain ⟨hA, hcon, htl⟩ := h
        subst hA
        subst hcon
        subst htl
        obtain ⟨hshape, hnn⟩ := lineMatch_sound hm
        refine ⟨by rw [hshape]; rfl, hnn, ?_⟩
        rw [replFirst_cons_nl_some hm]
        rfl
      | none =>
        rw [findSplit_cons_nl_none hm] at h
        cases hfs : findSplit tag rest with
        | none => rw [hfs] at h; simp at h
        | some p =>
          obtain ⟨A1, c1, t1⟩ := p
          rw [hfs] at h
          simp only [Option.map_some', Option.some.injEq, Prod.mk.injEq] at h
          obtain ⟨hA, hcon, htl⟩ := h
          subst hcon
          subst htl
          obtain ⟨ih1, ih2, ih3⟩ := ih hfs
          subst hA
          refine ⟨?_, ih2, ?_⟩
          · rw [List.cons_append]
            conv_lhs => rw [ih1]
          · rw [replFirst_cons_nl_none hm, ih3, List.cons_append]
    · cases hfs : findSplit tag rest with
      | none =>
        rw [findSplit_cons_ne hc, hfs] at h
        simp at h
      | some p =>
        obtain ⟨A1, c1, t1⟩ := p
        rw [findSplit_cons_ne hc, hfs] at h
        simp only [Option.map_some', Option.some.injEq, Prod.mk.injEq] at h
        obtain ⟨hA, hcon, htl⟩ := h
        subst hcon
        subst htl
        obtain ⟨ih1, ih2, ih3⟩ := ih hfs
        subst hA
        refine ⟨?_, ih2, ?_⟩
        · rw [List.cons_append]
          conv_lhs => rw [ih1]
        · rw [replFirst_cons_ne hc, ih3, List.cons_append]

theorem expandDollar_noDollar {matched before after u : List Char}
    (hd : noDollar u) : expandDollar matched before after u = u := by
  induction u with
  | nil => rfl
  | cons c rest ih =>
    have hc : c ≠ '$' := hd c (by simp)
    have hrest : noDollar rest := fun x hx => hd x (by simp [hx])
    unfold expandDollar
    rw [if_neg hc, ih hrest]

theorem replaceFirstLine_none {tag u s : List Char}
    (h : findSplit tag s = none) : replaceFirstLine tag u s = s := by
  unfold replaceFirstLine
  rw [h]

theorem replaceFirstLine_ne_nil {tag u s : List Char} (h : s ≠ []) :
    replaceFirstLine tag u s ≠ [] := by
  cases hfs : findSplit tag s with
  | none =>
    rw [replaceFirstLine_none hfs]
    exact h
  | some p =>
    obtain ⟨A, content, tail⟩ := p
    unfold replaceFirstLine
    rw [hfs]
    simp

theorem replaceFirstLine_eq_replFirst {tag u : List Char} (hd : noDollar u)
    (s : List Char) : replaceFirstLine tag u s = replFirst tag u s := by
  cases hfs : findSplit tag s with
  | none =>
    rw [replaceFirstLine_none hfs, findSplit_none_replFirst hfs]
  | some p =>
    obtain ⟨A, content, tail⟩ := p
    obtain ⟨-, -, h3⟩ := findSplit_some_spec u hfs
    unfold replaceFirstLine
    rw [hfs, h3]
    simp only []
    rw [expandDollar_noDollar hd]
    simp [List.append_assoc]

theorem replFirst_cross {t g u : List Char} (ht : noNl t) (hu : noNl u) (hg : noNl g)
    (hgt : ∀ w, dropPref t (g ++ w) = none) :
    ∀ s, replFirst t u s = s → replFirst t u (replFirst g u s) = replFirst g u s := by
  have hmt : ∀ w, lineMatch t (g ++ w) = none := by
    intro w
    unfold lineMatch
    rw [hgt w]
  intro s
  induction s with
  | nil => intro _; rfl
  | cons c rest ih =>
    intro hfix
    by_cases hc : c = '\n'
    · subst hc
      cases hmg : lineMatch g rest with
      | some pr =>
        obtain ⟨d, r⟩ := pr
        obtain ⟨hrest, hd⟩ := lineMatch_sound hmg
        have hmt_rest : lineMatch t rest = none := by
          rw [hrest]
          exact hmt _
        rw [replFirst_cons_nl_some hmg]
        rw [replFirst_cons_nl_none hmt_rest] at hfix
        have hfix2 : replFirst t u rest = rest := cons_tail_eq hfix
        have hrest2 : rest = (g ++ d) ++ '\n' :: r := by
          rw [hrest, List.append_assoc]
        have hnr : replFirst t u ('\n' :: r) = '\n' :: r := by
          have hstep := hfix2
          rw [hrest2, replFirst_append_noNl (noNl_append hg hd)] at hstep
          exact List.append_cancel_left hstep
        have hmt2 : lineMatch t (g ++ (u ++ '\n' :: r)) = none := hmt _
        rw [replFirst_cons_nl_none hmt2]
        congr 1
        rw [show g ++ (u ++ '\n' :: r) = (g ++ u) ++ '\n' :: r by rw [List.append_assoc]]
        rw [replFirst_append_noNl (noNl_append hg hu), hnr]
      | none =>
        rw [replFirst_cons_nl_none hmg]
        cases hmt3 : lineMatch t rest with
        | some pr2 =>
          obtain ⟨e, tl⟩ := pr2
          rw [replFirst_cons_nl_some hmt3] at hfix
          have hrest : rest = t ++ (u ++ '\n' :: tl) := (cons_tail_eq hfix).symm
          obtain ⟨z, hz⟩ := replFirst_nl_head g u tl
          have hRP : replFirst g u rest = (t ++ u) ++ '\n' :: z := by
            rw [hrest, show t ++ (u ++ '\n' :: tl) = (t ++ u) ++ '\n' :: tl by
              rw [List.append_assoc], replFirst_append_noNl (noNl_append ht hu), hz]
          rw [hRP]
          have hcan : lineMatch t ((t ++ u) ++ '\n' :: z) = some (u, z) := by
            rw [show ((t ++ u) ++ '\n' :: z : List Char) = t ++ (u ++ '\n' :: z) by
              rw [List.append_assoc]]
            exact lineMatch_canonical hu z
          rw [replFirst_cons_nl_some hcan]
          rw [show (t ++ (u ++ '\n' :: z) : List Char) = (t ++ u) ++ '\n' :: z by
            rw [List.append_assoc]]
        | none =>
          rw [replFirst_cons_nl_none hmt3] at hfix
          have hfix2 : replFirst t u rest = rest := cons_tail_eq hfix
          have hmt2 : lineMatch t (replFirst g u rest) = none :=
            lineMatch_none_replFirst ht hmt3
          rw [replFirst_cons_nl_none hmt2, ih hfix2]
    · rw [replFirst_cons_ne hc] at hfix
      have hfix2 : replFirst t u rest = rest := cons_tail_eq hfix
      rw [@replFirst_cons_ne g u rest c hc, replFirst_cons_ne hc, ih hfix2]

theorem noNl_uTag : noNl uTagChars := by decide

theorem noNl_pTag : noNl pTagChars := by decide

theorem dropPref_uTag_pTag (w : List Char) : dropPref uTagChars (pTagChars ++ w) = none := by
  simp [uTagChars, pTagChars, dropPref]

theorem mungeSdp_idem {u : List Char} (hu : noNl u) (hd : noDollar u) (s : List Char) :
    mungeSdp (mungeSdp s u) u = mungeSdp s u := by
  unfold mungeSdp
  simp only [replaceFirstLine_eq_replFirst hd]
  have h1 : replFirst uTagChars u (replFirst uTagChars u s) = replFirst uTagChars u s :=
    replFirst_idem noNl_uTag hu s
  have h2 := replFirst_cross noNl_uTag hu noNl_pTag dropPref_uTag_pTag
    (replFirst uTagChars u s) h1
  rw [h2]
  exact replFirst_idem noNl_pTag hu (replFirst uTagChars u s)

theorem replFirst_ne_nil {tag u : List Char} {s : List Char} (h : s ≠ []) :
    replFirst tag u s ≠ [] := by
  cases s with
  | nil => exact absurd rfl h
  | cons c rest =>
    by_cases hc : c = '\n'
    · subst hc
      cases hm : lineMatch tag rest with
      | some pr =>
        obtain ⟨c0, tl⟩ := pr
        rw [replFirst_cons_nl_some hm]
        simp
      | none =>
        rw [replFirst_cons_nl_none hm]
        simp
    · rw [replFirst_cons_ne hc]
      simp

theorem munge_ok {desc : SessionDescription} {s : String} (hs : desc.sdp = some s)
    (hne : s ≠ "") (ufrag : String) :
    munge desc ufrag =
      .ok { desc with sdp := some (String.mk (mungeSdp s.data ufrag.data)) } := by
  simp [munge, hs, hne]

theorem string_data_ne_nil {s : String} (h : s ≠ "") : s.data ≠ [] := by
  intro hnil
  apply h
  cases s with
  | mk d =>
    simp only [String.data] at hnil
    rw [hnil]

theorem mungeSdp_ne_nil {s u : List Char} (h : s ≠ []) : mungeSdp s u ≠ [] := by
  unfold mungeSdp
  exact replaceFirstLine_ne_nil (replaceFirstLine_ne_nil h)

theorem munge_idem {desc d1 : SessionDescription} {s ufrag : String}
    (hs : desc.sdp = some s) (hne : s ≠ "") (hu : noNl ufrag.data)
    (hd : noDollar ufrag.data)
    (hd1 : munge desc ufrag = .ok d1) : munge d1 ufrag = .ok d1 := by
  rw [munge_ok hs hne ufrag] at hd1
  injection hd1 with h1
  subst h1
  have hsd : s.data ≠ [] := string_data_ne_nil hne
  have hT : String.mk (mungeSdp s.data ufrag.data) ≠ "" := by
    intro hEq
    have h2 : mungeSdp s.data ufrag.data = [] := congrArg String.data hEq
    exact mungeSdp_ne_nil hsd h2
  rw [munge_ok rfl hT ufrag]
  rw [show (String.mk (mungeSdp s.data ufrag.data)).data = mungeSdp s.data ufrag.data from rfl]
  rw [mungeSdp_idem hu hd]

/- ### Helper lemmas: hex rendering, varint and multihash round-trips -/

theorem natHexAux_lt16 {fuel n : Nat} (acc : List Char) (h : n < 16) :
    natHexAux fuel n acc = hexDigitChar n :: acc := by
  cases fuel with
  | zero => rfl
  | succ f =>
    unfold natHexAux
    rw [if_pos h]

theorem natHexStr_lt16 {n : Nat} (h : n < 16) : natHexStr n = [hexDigitChar n] := by
  unfold natHexStr
  exact natHexAux_lt16 [] h

theorem hexDigitChar_zero : hexDigitChar 0 = '0' := by decide

theorem byteHex_eq_pair {b : Nat} (hb : b < 256) :
    byteHex b = [hexDigitChar (b / 16), hexDigitChar (b % 16)] := by
  by_cases h16 : b < 16
  · simp only [byteHex, natHexStr_lt16 h16]
    rw [if_pos (by simp)]
    rw [Nat.div_eq_of_lt h16, Nat.mod_eq_of_lt h16, hexDigitChar_zero]
  · have hdiv : b / 16 < 16 := by omega
    have hb1 : natHexStr b = [hexDigitChar (b / 16), hexDigitChar (b % 16)] := by
      unfold natHexStr
      cases hbb : b with
      | zero => omega
      | succ m =>
        unfold natHexAux
        rw [if_neg (by omega), natHexAux_lt16 _ (by omega)]
    simp only [byteHex, hb1]
    simp

theorem hexCharVal_hexDigitChar : ∀ m < 16, hexCharVal? (hexDigitChar m) = some m := by
  decide

theorem catLists_cons (l : List Char) (ls : List (List Char)) :
    catLists (l :: ls) = l ++ catLists ls := rfl

theorem chunk2_cons2 (a b : Char) (rest : List Char) :
    chunk2 (a :: b :: rest) = [a, b] :: chunk2 rest := rfl

theorem hexPairsToBytes_catLists {bs : List Nat} (hb : ∀ b ∈ bs, b < 256) :
    hexPairsToBytes? (catLists (bs.map byteHex)) = some bs := by
  induction bs with
  | nil => rfl
  | cons b rest ih =>
    have hb0 : b < 256 := hb b (by simp)
    have hbr : ∀ x ∈ rest, x < 256 := fun x hx => hb x (by simp [hx])
    rw [List.map_cons, catLists_cons, byteHex_eq_pair hb0]
    rw [List.cons_append, List.cons_append, List.nil_append]
    unfold hexPairsToBytes?
    rw [hexCharVal_hexDigitChar _ (by omega), hexCharVal_hexDigitChar _ (by omega), ih hbr]
    simp [Nat.div_add_mod]

theorem mbDecode_mbEncode {bs : List Nat} (hb : ∀ b ∈ bs, b < 256) :
    mbDecode (mbEncode bs) = .ok bs := by
  simp only [mbEncode, mbDecode]
  rw [hexPairsToBytes_catLists hb]

theorem varintDecode_varintEncode {n : Nat} (h : n < 16384) (r : List Nat) :
    varintDecode? (varintEncode n ++ r) = some (n, r) := by
  unfold varintEncode
  by_cases h128 : n < 128
  · rw [if_pos h128, List.cons_append, List.nil_append]
    simp [varintDecode?, h128]
  · rw [if_neg h128, List.cons_append, List.cons_append, List.nil_append]
    have h1 : ¬ n % 128 + 128 < 128 := by omega
    have h2 : n / 128 < 128 := by omega
    simp only [varintDecode?, if_neg h1, if_pos h2, Option.some.injEq, Prod.mk.injEq]
    constructor
    · omega
    · trivial

theorem mhDecode_mhEncode {code : Nat} {name : String} {digest : List Nat}
    (hcode : code < 16384) (hlen : digest.length < 128)
    (hname : mhCodeName? code = some name) :
    mhDecode? (mhEncode code digest) = some (name, digest) := by
  unfold mhEncode mhDecode?
  rw [varintDecode_varintEncode hcode]
  simp [varintDecode_varintEncode (show digest.length < 16384 by omega) digest, hname]

theorem foldl_append_byteHex (digest : List Nat) :
    ∀ acc : List Char, digest.foldl (fun s b => s ++ byteHex b) acc =
      acc ++ catLists (digest.map byteHex) := by
  induction digest with
  | nil =>
    intro acc
    simp [catLists]
  | cons b rest ih =>
    intro acc
    rw [List.foldl_cons, ih, List.map_cons, catLists_cons, List.append_assoc]

theorem chunk2_catLists {bs : List Nat} (hb : ∀ b ∈ bs, b < 256) :
    chunk2 (catLists (bs.map byteHex)) = bs.map byteHex := by
  induction bs with
  | nil => rfl
  | cons b rest ih =>
    have hb0 : b < 256 := hb b (by simp)
    have hbr : ∀ x ∈ rest, x < 256 := fun x hx => hb x (by simp [hx])
    rw [List.map_cons, catLists_cons, byteHex_eq_pair hb0]
    rw [List.cons_append, List.cons_append, List.nil_append, chunk2_cons2, ih hbr,
      ← byteHex_eq_pair hb0]

theorem catLists_byteHex_ne_nil {bs : List Nat} (h : bs ≠ []) (hb : ∀ b ∈ bs, b < 256) :
    catLists (bs.map byteHex) ≠ [] := by
  cases bs with
  | nil => exact absurd rfl h
  | cons b rest =>
    have hb0 : b < 256 := hb b (by simp)
    rw [List.map_cons, catLists_cons, byteHex_eq_pair hb0]
    simp

theorem listUp_append (a b : List Char) : listUp (a ++ b) = listUp a ++ listUp b :=
  List.map_append charUp a b

theorem charUp_colon : charUp ':' = ':' := by decide

theorem listUp_joinColon (L : List (List Char)) :
    listUp (joinColon L) = joinColon (L.map listUp) := by
  induction L with
  | nil => rfl
  | cons l ls ih =>
    cases ls with
    | nil => rfl
    | cons l2 ls2 =>
      rw [show joinColon (l :: l2 :: ls2) = l ++ ':' :: joinColon (l2 :: ls2) from rfl]
      rw [show (l :: l2 :: ls2).map listUp = listUp l :: (l2 :: ls2).map listUp from rfl]
      rw [show joinColon (listUp l :: (l2 :: ls2).map listUp) =
        listUp l ++ ':' :: joinColon ((l2 :: ls2).map listUp) from by
          cases hm : (l2 :: ls2).map listUp with
          | nil => simp at hm
          | cons x xs => rfl]
      rw [listUp_append]
      congr 1
      rw [show listUp (':' :: joinColon (l2 :: ls2)) =
        charUp ':' :: listUp (joinColon (l2 :: ls2)) from rfl]
      rw [charUp_colon, ih]

theorem charUp_hexDigitChar : ∀ m < 16, charUp (hexDigitChar m) = upHexDigit m := by
  decide

theorem listUp_byteHex {b : Nat} (hb : b < 256) :
    listUp (byteHex b) = [upHexDigit (b / 16), upHexDigit (b % 16)] := by
  rw [byteHex_eq_pair hb]
  rw [show listUp [hexDigitChar (b / 16), hexDigitChar (b % 16)] =
    [charUp (hexDigitChar (b / 16)), charUp (hexDigitChar (b % 16))] from rfl]
  rw [charUp_hexDigitChar _ (by omega), charUp_hexDigitChar _ (by omega)]

theorem map_listUp_byteHex {bs : List Nat} (hb : ∀ b ∈ bs, b < 256) :
    (bs.map byteHex).map listUp = bs.map (fun b => [upHexDigit (b / 16), upHexDigit (b % 16)]) := by
  induction bs with
  | nil => rfl
  | cons b rest ih =>
    have hb0 : b < 256 := hb b (by simp)
    have hbr : ∀ x ∈ rest, x < 256 := fun x hx => hb x (by simp [hx])
    rw [List.map_cons, List.map_cons, List.map_cons, listUp_byteHex hb0, ih hbr]

theorem certhashToFingerprint_spec {ma : Multiaddr} {v : String} {bytes : List Nat}
    {name : String} {digest : List Nat} {tagChars : List Char}
    (hch : certhash ma = .ok v) (hmb : mbDecode v = .ok bytes)
    (hmh : mhDecode? bytes = some (name, digest)) (htag : algTagOf name = some tagChars)
    (hne : digest ≠ []) (hb : ∀ b ∈ digest, b < 256) :
    certhashToFingerprint ma =
      .ok (String.mk (listUp tagChars ++ ' ' ::
             joinColon (digest.map (fun b => [upHexDigit (b / 16), upHexDigit (b % 16)]))),
           String.mk (catLists (digest.map byteHex))) := by
  unfold certhashToFingerprint
  rw [hch]
  simp only [hmb, hmh, htag]
  rw [foldl_append_byteHex digest []]
  rw [List.nil_append]
  rw [if_neg (catLists_byteHex_ne_nil hne hb)]
  rw [chunk2_catLists hb, listUp_joinColon, map_listUp_byteHex hb]

/- ### Helper lemmas: SDP lines -/

theorem noNl_cons {c : Char} {l : List Char} (hc : c ≠ '\n') (hl : noNl l) :
    noNl (c :: l) := by
  intro x hx
  rcases List.mem_cons.mp hx with h | h
  · rw [h]; exact hc
  · exact hl x h

theorem digitCh_ne_nl (d : Nat) : digitCh d ≠ '\n' := by
  unfold digitCh
  have h : d % 10 < 10 := Nat.mod_lt _ (by omega)
  exact (show ∀ m < 10, Char.ofNat (48 + m) ≠ '\n' by decide) _ h

theorem noNl_natDecAux (fuel : Nat) : ∀ (n : Nat) (acc : List Char),
    noNl acc → noNl (natDecAux fuel n acc) := by
  induction fuel with
  | zero =>
    intro n acc hacc
    exact noNl_cons (digitCh_ne_nl n) hacc
  | succ f ih =>
    intro n acc hacc
    unfold natDecAux
    by_cases h : n < 10
    · rw [if_pos h]
      exact noNl_cons (digitCh_ne_nl n) hacc
    · rw [if_neg h]
      exact ih (n / 10) _ (noNl_cons (digitCh_ne_nl n) hacc)

theorem noNl_natDecStr (n : Nat) : noNl (natDecStr n) := by
  unfold natDecStr
  exact noNl_natDecAux n n [] (by intro c hc; simp at hc)

theorem splitNl_cons (c : Char) (rest : List Char) :
    splitNl (c :: rest) = match splitNl rest with
      | [] => if c = '\n' then [[], [c]] else [[c]]
      | h :: t => if c = '\n' then [] :: h :: t else (c :: h) :: t := rfl

theorem splitNl_ne_nil (s : List Char) : splitNl s ≠ [] := by
  cases s with
  | nil => simp [splitNl]
  | cons c rest =>
    rw [splitNl_cons]
    cases splitNl rest with
    | nil => by_cases hc : c = '\n' <;> simp [hc]
    | cons h t => by_cases hc : c = '\n' <;> simp [hc]

theorem splitNl_append_line {l : List Char} (hl : noNl l) (rest : List Char) :
    splitNl (l ++ '\n' :: rest) = l :: splitNl rest := by
  induction l with
  | nil =>
    rw [List.nil_append, splitNl_cons]
    cases hs : splitNl rest with
    | nil => exact absurd hs (splitNl_ne_nil rest)
    | cons h t => simp [hs]
  | cons c cs ih =>
    have hc : c ≠ '\n' := hl c (by simp)
    have hcs : noNl cs := fun x hx => hl x (by simp [hx])
    rw [List.cons_append, splitNl_cons, ih hcs]
    simp [hc]

theorem splitNl_joinNlTerm {lines : List (List Char)} (h : ∀ l ∈ lines, noNl l) :
    splitNl (joinNlTerm lines) = lines ++ [[]] := by
  induction lines with
  | nil => rfl
  | cons l ls ih =>
    rw [show joinNlTerm (l :: ls) = l ++ '\n' :: joinNlTerm ls from rfl]
    rw [splitNl_append_line (h l (by simp))]
    rw [ih (fun x hx => h x (by simp [hx]))]
    rfl

theorem lsw_cons_eq (p c : Char) (ps cs : List Char) :
    listStartsWith (p :: ps) (c :: cs) = if c = p then listStartsWith ps cs else false := rfl

theorem lsw_append_self : ∀ (t r : List Char), listStartsWith t (t ++ r) = true := by
  intro t
  induction t with
  | nil => intro r; rfl
  | cons p ps ih =>
    intro r
    rw [List.cons_append, lsw_cons_eq, if_pos rfl, ih]

theorem lsw_conflict {attr pre : List Char} (h1 : listStartsWith attr pre = false)
    (h2 : listStartsWith pre attr = false) (X : List Char) :
    listStartsWith attr (pre ++ X) = false := by
  induction attr generalizing pre with
  | nil => simp [listStartsWith] at h1
  | cons p ps ih =>
    cases pre with
    | nil => simp [listStartsWith] at h2
    | cons c cs =>
      rw [List.cons_append, lsw_cons_eq]
      by_cases hc : c = p
      · rw [if_pos hc]
        rw [lsw_cons_eq, if_pos hc] at h1
        rw [lsw_cons_eq, if_pos hc.symm] at h2
        exact ih h1 h2
      · rw [if_neg hc]

theorem lsw_u_closed :
    listStartsWith uTagChars "v=0".data = false ∧
    listStartsWith uTagChars "s=-".data = false ∧
    listStartsWith uTagChars "t=0 0".data = false ∧
    listStartsWith uTagChars "a=ice-lite".data = false ∧
    listStartsWith uTagChars "a=mid:0".data = false ∧
    listStartsWith uTagChars "a=setup:passive".data = false ∧
    listStartsWith uTagChars "a=sctp-port:5000".data = false ∧
    listStartsWith uTagChars "a=max-message-size:100000".data = false ∧
    listStartsWith uTagChars ([] : List Char) = false := by
  decide

theorem lsw_u_sym :
    (∀ X, listStartsWith uTagChars ("o=- 0 0 IN ".data ++ X) = false) ∧
    (∀ X, listStartsWith uTagChars ("c=IN ".data ++ X) = false) ∧
    (∀ X, listStartsWith uTagChars ("m=application ".data ++ X) = false) ∧
    (∀ X, listStartsWith uTagChars
      ("a=candidate:1467250027 1 UDP 1467250027 ".data ++ X) = false) ∧
    (∀ X, listStartsWith uTagChars ("a=ice-pwd:".data ++ X) = false) ∧
    (∀ X, listStartsWith uTagChars ("a=fingerprint:".data ++ X) = false) :=
  ⟨lsw_conflict (by decide) (by decide), lsw_conflict (by decide) (by decide),
   lsw_conflict (by decide) (by decide), lsw_conflict (by decide) (by decide),
   lsw_conflict (by decide) (by decide), lsw_conflict (by decide) (by decide)⟩

theorem lsw_u_self (X : List Char) :
    listStartsWith uTagChars ("a=ice-ufrag:".data ++ X) = true := by
  rw [show "a=ice-ufrag:".data = uTagChars from by decide]
  exact lsw_append_self uTagChars X

theorem lsw_p_closed :
    listStartsWith pTagChars "v=0".data = false ∧
    listStartsWith pTagChars "s=-".data = false ∧
    listStartsWith pTagChars "t=0 0".data = false ∧
    listStartsWith pTagChars "a=ice-lite".data = false ∧
    listStartsWith pTagChars "a=mid:0".data = false ∧
    listStartsWith pTagChars "a=setup:passive".data = false ∧
    listStartsWith pTagChars "a=sctp-port:5000".data = false ∧
    listStartsWith pTagChars "a=max-message-size:100000".data = false ∧
    listStartsWith pTagChars ([] : List Char) = false := by
  decide

theorem lsw_p_sym :
    (∀ X, listStartsWith pTagChars ("o=- 0 0 IN ".data ++ X) = false) ∧
    (∀ X, listStartsWith pTagChars ("c=IN ".data ++ X) = false) ∧
    (∀ X, listStartsWith pTagChars ("m=application ".data ++ X) = false) ∧
    (∀ X, listStartsWith pTagChars
      ("a=candidate:1467250027 1 UDP 1467250027 ".data ++ X) = false) ∧
    (∀ X, listStartsWith pTagChars ("a=ice-ufrag:".data ++ X) = false) ∧
    (∀ X, listStartsWith pTagChars ("a=fingerprint:".data ++ X) = false) :=
  ⟨lsw_conflict (by decide) (by decide), lsw_conflict (by decide) (by decide),
   lsw_conflict (by decide) (by decide), lsw_conflict (by decide) (by decide),
   lsw_conflict (by decide) (by decide), lsw_conflict (by decide) (by decide)⟩

theorem lsw_p_self (X : List Char) :
    listStartsWith pTagChars ("a=ice-pwd:".data ++ X) = true := by
  rw [show "a=ice-pwd:".data = pTagChars from by decide]
  exact lsw_append_self pTagChars X

theorem lsw_f_closed :
    listStartsWith fpTagChars "v=0".data = false ∧
    listStartsWith fpTagChars "s=-".data = false ∧
    listStartsWith fpTagChars "t=0 0".data = false ∧
    listStartsWith fpTagChars "a=ice-lite".data = false ∧
    listStartsWith fpTagChars "a=mid:0".data = false ∧
    listStartsWith fpTagChars "a=setup:passive".data = false ∧
    listStartsWith fpTagChars "a=sctp-port:5000".data = false ∧
    listStartsWith fpTagChars "a=max-message-size:100000".data = false ∧
    listStartsWith fpTagChars ([] : List Char) = false := by
  decide

theorem lsw_f_sym :
    (∀ X, listStartsWith fpTagChars ("o=- 0 0 IN ".data ++ X) = false) ∧
    (∀ X, listStartsWith fpTagChars ("c=IN ".data ++ X) = false) ∧
    (∀ X, listStartsWith fpTagChars ("m=application ".data ++ X) = false) ∧
    (∀ X, listStartsWith fpTagChars
      ("a=candidate:1467250027 1 UDP 1467250027 ".data ++ X) = false) ∧
    (∀ X, listStartsWith fpTagChars ("a=ice-ufrag:".data ++ X) = false) ∧
    (∀ X, listStartsWith fpTagChars ("a=ice-pwd:".data ++ X) = false) :=
  ⟨lsw_conflict (by decide) (by decide), lsw_conflict (by decide) (by decide),
   lsw_conflict (by decide) (by decide), lsw_conflict (by decide) (by decide),
   lsw_conflict (by decide) (by decide), lsw_conflict (by decide) (by decide)⟩

theorem lsw_f_self (X : List Char) :
    listStartsWith fpTagChars ("a=fingerprint:".data ++ X) = true := by
  rw [show "a=fingerprint:".data = fpTagChars from by decide]
  exact lsw_append_self fpTagChars X

theorem lsw_ne_true {attr l : List Char} (h : listStartsWith attr l = false) :
    ¬ (listStartsWith attr l = true) := by
  rw [h]
  exact Bool.false_ne_true

theorem filter_lines_ufrag (ipver host portStr ufrag certfp : List Char) :
    List.filter (fun l => listStartsWith uTagChars l)
      (sdpLinesModel ipver host portStr ufrag certfp ++ [[]]) =
      ["a=ice-ufrag:".data ++ ufrag] := by
  unfold sdpLinesModel
  rw [List.filter_append]
  rw [List.filter_cons_of_neg (lsw_ne_true lsw_u_closed.1)]
  rw [List.filter_cons_of_neg (lsw_ne_true (lsw_u_sym.1 _))]
  rw [List.filter_cons_of_neg (lsw_ne_true lsw_u_closed.2.1)]
  rw [List.filter_cons_of_neg (lsw_ne_true (lsw_u_sym.2.1 _))]
  rw [List.filter_cons_of_neg (lsw_ne_true lsw_u_closed.2.2.1)]
  rw [List.filter_cons_of_neg (lsw_ne_true lsw_u_closed.2.2.2.1)]
  rw [List.filter_cons_of_neg (lsw_ne_true (lsw_u_sym.2.2.1 _))]
  rw [List.filter_cons_of_neg (lsw_ne_true lsw_u_closed.2.2.2.2.1)]
  rw [List.filter_cons_of_neg (lsw_ne_true lsw_u_closed.2.2.2.2.2.1)]
  rw [List.filter_cons_of_pos (lsw_u_self _)]
  rw [List.filter_cons_of_neg (lsw_ne_true (lsw_u_sym.2.2.2.2.1 _))]
  rw [List.filter_cons_of_neg (lsw_ne_true (lsw_u_sym.2.2.2.2.2 _))]
  rw [List.filter_cons_of_neg (lsw_ne_true lsw_u_closed.2.2.2.2.2.2.1)]
  rw [List.filter_cons_of_neg (lsw_ne_true lsw_u_closed.2.2.2.2.2.2.2.1)]
  rw [List.filter_cons_of_neg (lsw_ne_true (lsw_u_sym.2.2.2.1 _))]
  rw [List.filter_nil]
  rw [show List.filter (fun l => listStartsWith uTagChars l) [[]] = ([] : List (List Char))
    from by decide]
  rw [List.append_nil]

theorem filter_lines_pwd (ipver host portStr ufrag certfp : List Char) :
    List.filter (fun l => listStartsWith pTagChars l)
      (sdpLinesModel ipver host portStr ufrag certfp ++ [[]]) =
      ["a=ice-pwd:".data ++ ufrag] := by
  unfold sdpLinesModel
  rw [List.filter_append]
  rw [List.filter_cons_of_neg (lsw_ne_true lsw_p_closed.1)]
  rw [List.filter_cons_of_neg (lsw_ne_true (lsw_p_sym.1 _))]
  rw [List.filter_cons_of_neg (lsw_ne_true lsw_p_closed.2.1)]
  rw [List.filter_cons_of_neg (lsw_ne_true (lsw_p_sym.2.1 _))]
  rw [List.filter_cons_of_neg (lsw_ne_true lsw_p_closed.2.2.1)]
  rw [List.filter_cons_of_neg (lsw_ne_true lsw_p_closed.2.2.2.1)]
  rw [List.filter_cons_of_neg (lsw_ne_true (lsw_p_sym.2.2.1 _))]
  rw [List.filter_cons_of_neg (lsw_ne_true lsw_p_closed.2.2.2.2.1)]
  rw [List.filter_cons_of_neg (lsw_ne_true lsw_p_closed.2.2.2.2.2.1)]
  rw [List.filter_cons_of_neg (lsw_ne_true (lsw_p_sym.2.2.2.2.1 _))]
  rw [List.filter_cons_of_pos (lsw_p_self _)]
  rw [List.filter_cons_of_neg (lsw_ne_true (lsw_p_sym.2.2.2.2.2 _))]
  rw [List.filter_cons_of_neg (lsw_ne_true lsw_p_closed.2.2.2.2.2.2.1)]
  rw [List.filter_cons_of_neg (lsw_ne_true lsw_p_closed.2.2.2.2.2.2.2.1)]
  rw [List.filter_cons_of_neg (lsw_ne_true (lsw_p_sym.2.2.2.1 _))]
  rw [List.filter_nil]
  rw [show List.filter (fun l => listStartsWith pTagChars l) [[]] = ([] : List (List Char))
    from by decide]
  rw [List.append_nil]

theorem filter_lines_fp (ipver host portStr ufrag certfp : List Char) :
    List.filter (fun l => listStartsWith fpTagChars l)
      (sdpLinesModel ipver host portStr ufrag certfp ++ [[]]) =
      ["a=fingerprint:".data ++ certfp] := by
  unfold sdpLinesModel
  rw [List.filter_append]
  rw [List.filter_cons_of_neg (lsw_ne_true lsw_f_closed.1)]
  rw [List.filter_cons_of_neg (lsw_ne_true (lsw_f_sym.1 _))]
  rw [List.filter_cons_of_neg (lsw_ne_true lsw_f_closed.2.1)]
  rw [List.filter_cons_of_neg (lsw_ne_true (lsw_f_sym.2.1 _))]
  rw [List.filter_cons_of_neg (lsw_ne_true lsw_f_closed.2.2.1)]
  rw [List.filter_cons_of_neg (lsw_ne_true lsw_f_closed.2.2.2.1)]
  rw [List.filter_cons_of_neg (lsw_ne_true (lsw_f_sym.2.2.1 _))]
  rw [List.filter_cons_of_neg (lsw_ne_true lsw_f_closed.2.2.2.2.1)]
  rw [List.filter_cons_of_neg (lsw_ne_true lsw_f_closed.2.2.2.2.2.1)]
  rw [List.filter_cons_of_neg (lsw_ne_true (lsw_f_sym.2.2.2.2.1 _))]
  rw [List.filter_cons_of_neg (lsw_ne_true (lsw_f_sym.2.2.2.2.2 _))]
  rw [List.filter_cons_of_pos (lsw_f_self _)]
  rw [List.filter_cons_of_neg (lsw_ne_true lsw_f_closed.2.2.2.2.2.2.1)]
  rw [List.filter_cons_of_neg (lsw_ne_true lsw_f_closed.2.2.2.2.2.2.2.1)]
  rw [List.filter_cons_of_neg (lsw_ne_true (lsw_f_sym.2.2.2.1 _))]
  rw [List.filter_nil]
  rw [show List.filter (fun l => listStartsWith fpTagChars l) [[]] = ([] : List (List Char))
    from by decide]
  rw [List.append_nil]

theorem sdpLines_noNl {ipver host portStr ufrag certfp : List Char}
    (h1 : noNl ipver) (h2 : noNl host) (h3 : noNl portStr) (h4 : noNl ufrag)
    (h5 : noNl certfp) :
    ∀ l ∈ sdpLinesModel ipver host portStr ufrag certfp, noNl l := by
  intro l hl
  unfold sdpLinesModel at hl
  simp only [List.mem_cons, List.not_mem_nil, or_false] at hl
  rcases hl with h|h|h|h|h|h|h|h|h|h|h|h|h|h|h <;> rw [h]
  · decide
  · exact noNl_append (by decide) (noNl_append h1 (noNl_cons (by decide) h2))
  · decide
  · exact noNl_append (by decide) (noNl_append h1 (noNl_cons (by decide) h2))
  · decide
  · decide
  · exact noNl_append (by decide) (noNl_append h3 (by decide))
  · decide
  · decide
  · exact noNl_append (by decide) h4
  · exact noNl_append (by decide) h4
  · exact noNl_append (by decide) h5
  · decide
  · decide
  · exact noNl_append (by decide) (noNl_append h2 (noNl_cons (by decide)
      (noNl_append h3 (by decide))))

/- ### Claim theorems -/

/-- C9: munging a session description whose SDP body is absent fails with
`InvalidArgument`, and (the model being a pure function over the input) the
input description is not modified. -/
theorem munge_missing_sdp_invalid_argument (desc : SessionDescription) (ufrag : String)
    (h : desc.sdp = none) :
    munge desc ufrag = .error (.invalidArgument "Can't munge a missing SDP") := by
  simp [munge, h]

/-- C9 witness: the concrete no-body description. -/
theorem munge_missing_sdp_invalid_argument_witness :
    munge { type := "offer", sdp := none } "u" =
      .error (.invalidArgument "Can't munge a missing SDP") :=
  munge_missing_sdp_invalid_argument { type := "offer", sdp := none } "u" rfl

/-- C10: on a non-empty SDP body with no newline-delimited `a=ice-ufrag` line
and no newline-delimited `a=ice-pwd` line, munge raises no error and returns
the description unchanged (in particular a credential line at the very start
of the body, which is not preceded by a newline, is not rewritten). -/
theorem munge_no_credential_lines_identity (desc : SessionDescription) (s ufrag : String)
    (hs : desc.sdp = some s) (hne : s ≠ "")
    (hu : findSplit uTagChars s.data = none) (hp : findSplit pTagChars s.data = none) :
    munge desc ufrag = .ok desc := by
  rw [munge_ok hs hne ufrag]
  have h1 : mungeSdp s.data ufrag.data = s.data := by
    unfold mungeSdp
    rw [replaceFirstLine_none hu, replaceFirstLine_none hp]
  rw [h1]
  have h2 : String.mk s.data = s := by cases s; rfl
  rw [h2]
  cases desc with
  | mk ty sd =>
    simp only [SessionDescription.sdp] at hs
    rw [hs]

/-- C10 witness: a body whose credential lines begin at the start of the body
and lack a trailing newline, with any ufrag. -/
theorem munge_no_credential_lines_identity_witness :
    munge mungeNoLineDesc "NEWUFRAG" = .ok mungeNoLineDesc :=
  munge_no_credential_lines_identity mungeNoLineDesc "a=ice-ufrag:x\na=ice-pwd:y"
    "NEWUFRAG" rfl (by decide) (by decide) (by decide)

/-- C4 counterexample: with the ufrag string `U\nV` (which contains a
newline), applying munge twice does not agree with applying it once; and
with the newline-free ufrag consisting of a dollar sign followed by an
ampersand, ECMAScript replacement-pattern substitution expands it to the
whole matched text, so the document grows and the second application again
disagrees with the first. Hence the claim quantified over every ufrag
string fails, even restricted to newline-free ufrags. -/
theorem munge_special_ufrag_counterexample :
    ((munge mungeCexDesc "U\nV").bind (fun d => munge d "U\nV") ≠
      munge mungeCexDesc "U\nV") ∧
    ((munge mungeCexDesc "$&").bind (fun d => munge d "$&") ≠
      munge mungeCexDesc "$&") ∧
    noNl ("$&".data) := by
  refine ⟨by decide, by decide, by decide⟩

/-- C4 (amended: the ufrag contains no newline and no dollar-sign
character): munge rewrites exactly the first newline-delimited
`a=ice-ufrag` line and then the first newline-delimited `a=ice-pwd` line of
the body — the text before and after each rewritten line, which contains
every other occurrence, is returned unchanged — no-ops when a line is
absent, and applying munge a second time with the same ufrag returns its
input unchanged. -/
theorem munge_first_occurrence_idempotent (desc : SessionDescription) (s ufrag : String)
    (hs : desc.sdp = some s) (hne : s ≠ "") (hu : noNl ufrag.data)
    (hd : noDollar ufrag.data) :
    (∀ A content tail, findSplit uTagChars s.data = some (A, content, tail) →
        s.data = A ++ '\n' :: (uTagChars ++ (content ++ '\n' :: tail)) ∧
        replaceFirstLine uTagChars ufrag.data s.data =
          A ++ '\n' :: (uTagChars ++ (ufrag.data ++ '\n' :: tail))) ∧
    (findSplit uTagChars s.data = none →
        replaceFirstLine uTagChars ufrag.data s.data = s.data) ∧
    (∀ A content tail,
        findSplit pTagChars (replaceFirstLine uTagChars ufrag.data s.data) =
            some (A, content, tail) →
        replaceFirstLine uTagChars ufrag.data s.data =
            A ++ '\n' :: (pTagChars ++ (content ++ '\n' :: tail)) ∧
        mungeSdp s.data ufrag.data =
          A ++ '\n' :: (pTagChars ++ (ufrag.data ++ '\n' :: tail))) ∧
    (findSplit pTagChars (replaceFirstLine uTagChars ufrag.data s.data) = none →
        mungeSdp s.data ufrag.data = replaceFirstLine uTagChars ufrag.data s.data) ∧
    munge desc ufrag =
      .ok { desc with sdp := some (String.mk (mungeSdp s.data ufrag.data)) } ∧
    (∀ d1, munge desc ufrag = .ok d1 → munge d1 ufrag = .ok d1) := by
  simp only [replaceFirstLine_eq_replFirst hd]
  refine ⟨?_, ?_, ?_, ?_, ?_, ?_⟩
  · intro A content tail h
    obtain ⟨h1, _, h3⟩ := findSplit_some_spec ufrag.data h
    exact ⟨h1, h3⟩
  · intro h
    exact findSplit_none_replFirst h
  · intro A content tail h
    obtain ⟨h1, _, h3⟩ := findSplit_some_spec ufrag.data h
    refine ⟨h1, ?_⟩
    unfold mungeSdp
    simp only [replaceFirstLine_eq_replFirst hd]
    exact h3
  · intro h
    unfold mungeSdp
    simp only [replaceFirstLine_eq_replFirst hd]
    exact findSplit_none_replFirst h
  · exact munge_ok hs hne ufrag
  · intro d1 hd1
    exact munge_idem hs hne hu hd hd1

/-- C4 witness: the amended theorem applied to a concrete three-line SDP. -/
theorem munge_first_occurrence_idempotent_witness :
    munge mungeWitnessDesc "fresh" =
      .ok { type := "offer", sdp := some "v=0\na=ice-ufrag:fresh\na=ice-pwd:fresh\nz=9\n" } ∧
    (munge mungeWitnessDesc "fresh").bind (fun d => munge d "fresh") =
      munge mungeWitnessDesc "fresh" := by
  have h := munge_first_occurrence_idempotent mungeWitnessDesc
    "v=0\na=ice-ufrag:old\na=ice-pwd:old2\nz=9\n" "fresh" rfl (by decide) (by decide)
    (by decide)
  obtain ⟨-, -, -, -, h5, h6⟩ := h
  constructor
  · rw [h5]
    decide
  · rw [h5]
    exact h6 _ h5

/-- C3 counterexample: with the ufrag string `x\ny` (which contains a
newline), the synthesized answer does not contain an `a=ice-ufrag` line
carrying the input ufrag — the newline splits it — so the claim quantified
over every ufrag string fails. -/
theorem synthesize_answer_newline_ufrag_counterexample :
    (fromMultiAddr maSha256Small "x\ny").map
      (fun d => (splitNl (d.sdp.getD "").data).filter (fun l => listStartsWith uTagChars l)) =
      .ok ["a=ice-ufrag:".data ++ "x".data] ∧
    (fromMultiAddr maSha256Small "x\ny").map
      (fun d => (splitNl (d.sdp.getD "").data).filter (fun l => listStartsWith uTagChars l)) ≠
      .ok ["a=ice-ufrag:".data ++ "x\ny".data] := by
  constructor
  · decide
  · decide

/-- C3 (amended: the ufrag contains no newline, and the address's host,
IP-version string and fingerprint display string are newline-free, as any
parsed multiaddr produces): the synthesized answer has role tag `answer` and
its SDP text has exactly one `a=ice-ufrag` line and exactly one `a=ice-pwd`
line, both carrying exactly the input ufrag, and exactly one `a=fingerprint`
line carrying exactly the fingerprint display string derived from the
address's certhash component. -/
theorem synthesize_answer_fields (ma : Multiaddr) (ufrag fpStr raw : String)
    (hfp : certhashToFingerprint ma = .ok (fpStr, raw))
    (huf : noNl ufrag.data) (hipv : noNl (ipv ma).data) (hip : noNl (ip ma).data)
    (hfpn : noNl fpStr.data) :
    ∃ S : String,
      fromMultiAddr ma ufrag = .ok { type := "answer", sdp := some S } ∧
      (splitNl S.data).filter (fun l => listStartsWith uTagChars l) =
        ["a=ice-ufrag:".data ++ ufrag.data] ∧
      (splitNl S.data).filter (fun l => listStartsWith pTagChars l) =
        ["a=ice-pwd:".data ++ ufrag.data] ∧
      (splitNl S.data).filter (fun l => listStartsWith fpTagChars l) =
        ["a=fingerprint:".data ++ fpStr.data] := by
  refine ⟨String.mk (joinNlTerm (sdpLinesModel (ipv ma).data (ip ma).data
    (natDecStr (port ma)) ufrag.data fpStr.data)), ?_, ?_, ?_, ?_⟩
  · simp [fromMultiAddr, ma2sdp, hfp]
  · rw [show (String.mk (joinNlTerm (sdpLinesModel (ipv ma).data (ip ma).data
      (natDecStr (port ma)) ufrag.data fpStr.data))).data = joinNlTerm (sdpLinesModel
      (ipv ma).data (ip ma).data (natDecStr (port ma)) ufrag.data fpStr.data) from rfl]
    rw [splitNl_joinNlTerm (sdpLines_noNl hipv hip (noNl_natDecStr _) huf hfpn)]
    exact filter_lines_ufrag _ _ _ _ _
  · rw [show (String.mk (joinNlTerm (sdpLinesModel (ipv ma).data (ip ma).data
      (natDecStr (port ma)) ufrag.data fpStr.data))).data = joinNlTerm (sdpLinesModel
      (ipv ma).data (ip ma).data (natDecStr (port ma)) ufrag.data fpStr.data) from rfl]
    rw [splitNl_joinNlTerm (sdpLines_noNl hipv hip (noNl_natDecStr _) huf hfpn)]
    exact filter_lines_pwd _ _ _ _ _
  · rw [show (String.mk (joinNlTerm (sdpLinesModel (ipv ma).data (ip ma).data
      (natDecStr (port ma)) ufrag.data fpStr.data))).data = joinNlTerm (sdpLinesModel
      (ipv ma).data (ip ma).data (natDecStr (port ma)) ufrag.data fpStr.data) from rfl]
    rw [splitNl_joinNlTerm (sdpLines_noNl hipv hip (noNl_natDecStr _) huf hfpn)]
    exact filter_lines_fp _ _ _ _ _

/-- C3 witness: the amended theorem at a concrete sha2-256 certhash address
and ufrag `zz`. -/
theorem synthesize_answer_fields_witness :
    ∃ S : String,
      fromMultiAddr maSha256Small "zz" = .ok { type := "answer", sdp := some S } ∧
      (splitNl S.data).filter (fun l => listStartsWith uTagChars l) =
        ["a=ice-ufrag:".data ++ "zz".data] ∧
      (splitNl S.data).filter (fun l => listStartsWith pTagChars l) =
        ["a=ice-pwd:".data ++ "zz".data] ∧
      (splitNl S.data).filter (fun l => listStartsWith fpTagChars l) =
        ["a=fingerprint:".data ++ "SHA-256 AB:CD".data] :=
  synthesize_answer_fields maSha256Small "zz" "SHA-256 AB:CD" "abcd"
    (by decide) (by decide) (by decide) (by decide) (by decide)

theorem mbEncode_ne_empty (bs : List Nat) : mbEncode bs ≠ "" := by
  unfold mbEncode
  intro h
  have h2 := congrArg String.data h
  simp at h2

theorem certhash_mkCerthashMa {v : String} (hv : v ≠ "") :
    certhash (mkCerthashMa v) = .ok v := by
  unfold certhash mkCerthashMa CERTHASH_CODE
  simp [hv]

theorem varintEncode_lt256 {n : Nat} (h : n < 16384) : ∀ b ∈ varintEncode n, b < 256 := by
  intro b hb
  unfold varintEncode at hb
  by_cases h128 : n < 128
  · rw [if_pos h128] at hb
    simp at hb
    omega
  · rw [if_neg h128] at hb
    simp at hb
    rcases hb with h1 | h1 <;> omega

theorem mhEncode_lt256 {code : Nat} {D : List Nat} (hc : code < 16384)
    (hlen : D.length < 16384) (hb : ∀ b ∈ D, b < 256) :
    ∀ b ∈ mhEncode code D, b < 256 := by
  intro b hbm
  unfold mhEncode at hbm
  rcases List.mem_append.mp hbm with h | h
  · exact varintEncode_lt256 hc b h
  · rcases List.mem_append.mp h with h2 | h2
    · exact varintEncode_lt256 hlen b h2
    · exact hb b h2

theorem fingerprint_roundtrip_case {name tag : String} {tagChars : List Char}
    {code len : Nat}
    (hcode : code < 16384) (hlen128 : len < 128) (hlen0 : 0 < len)
    (hname : mhCodeName? code = some name) (htag : algTagOf name = some tagChars)
    (htagUp : listUp tagChars = tag.data)
    (D : List Nat) (hlen : D.length = len) (hb : ∀ b ∈ D, b < 256) :
    certhashToFingerprint (mkCerthashMa (mbEncode (mhEncode code D))) =
      .ok (String.mk (tag.data ++ ' ' ::
             joinColon (D.map (fun b => [upHexDigit (b / 16), upHexDigit (b % 16)]))),
           String.mk (catLists (D.map (fun b =>
             [hexDigitChar (b / 16), hexDigitChar (b % 16)])))) := by
  have hne : D ≠ [] := by
    intro h0
    rw [h0] at hlen
    simp at hlen
    omega
  have hlt := @mhEncode_lt256 code D hcode (by omega) hb
  have hspec := certhashToFingerprint_spec
    (certhash_mkCerthashMa (mbEncode_ne_empty (mhEncode code D)))
    (mbDecode_mbEncode hlt)
    (mhDecode_mhEncode hcode (by omega) hname)
    htag hne hb
  rw [hspec, htagUp]
  have hcat : D.map byteHex = D.map (fun b => [hexDigitChar (b / 16), hexDigitChar (b % 16)]) := by
    apply List.map_congr_left
    intro b hbD
    exact byteHex_eq_pair (hb b hbD)
  rw [hcat]

/-- C2 counterexample: for the md5 digest of sixteen `0x61` bytes, the second
component of the fingerprint result is the lowercase hex string
`"6161…61"`, not the raw digest bytes (which, read as a string, would be
`"aaaaaaaaaaaaaaaa"`), so the claim that the digest is returned as bytes and
not re-encoded fails. -/
theorem fingerprint_digest_is_hex_not_bytes_counterexample :
    (certhashToFingerprint maMd5SixteenA).map (fun p => p.2) =
      .ok "61616161616161616161616161616161" ∧
    (certhashToFingerprint maMd5SixteenA).map (fun p => p.2) ≠
      .ok "aaaaaaaaaaaaaaaa" ∧
    "aaaaaaaaaaaaaaaa" = String.mk ((List.replicate 16 0x61).map Char.ofNat) := by
  refine ⟨by decide, by decide, by decide⟩

/-- C2 (amended: the digest comes back as its lowercase hex rendering in a
string, not as raw bytes): for every allow-listed algorithm and every digest
of the correct length, deriving a fingerprint from the multibase encoding of
the multihash encoding of the digest yields the display string made of the
uppercase algorithm tag, a space, and the digest bytes as uppercase
colon-separated hex pairs, together with the lowercase hex rendering of the
digest. -/
theorem fingerprint_roundtrip (name tag : String) (code len : Nat)
    (hmem : (name, tag, code, len) ∈ fingerprintAllowTriples)
    (D : List Nat) (hlen : D.length = len) (hb : ∀ b ∈ D, b < 256) :
    certhashToFingerprint (mkCerthashMa (mbEncode (mhEncode code D))) =
      .ok (String.mk (tag.data ++ ' ' ::
             joinColon (D.map (fun b => [upHexDigit (b / 16), upHexDigit (b % 16)]))),
           String.mk (catLists (D.map (fun b =>
             [hexDigitChar (b / 16), hexDigitChar (b % 16)])))) := by
  unfold fingerprintAllowTriples at hmem
  simp only [List.mem_cons, List.not_mem_nil, or_false, Prod.mk.injEq] at hmem
  rcases hmem with ⟨h1, h2, h3, h4⟩ | ⟨h1, h2, h3, h4⟩ | ⟨h1, h2, h3, h4⟩ <;>
    subst h1 <;> subst h2 <;> subst h3 <;> subst h4
  · exact @fingerprint_roundtrip_case "md5" "MD5" "md5".data 0xd5 16 (by decide)
      (by decide) (by decide) (by decide) (by decide) (by decide) D hlen hb
  · exact @fingerprint_roundtrip_case "sha2-256" "SHA-256" "sha-256".data 0x12 32 (by decide)
      (by decide) (by decide) (by decide) (by decide) (by decide) D hlen hb
  · exact @fingerprint_roundtrip_case "sha2-512" "SHA-512" "sha-512".data 0x13 64 (by decide)
      (by decide) (by decide) (by decide) (by decide) (by decide) D hlen hb

/-- C2 witness: the amended theorem at the md5 row with the digest of
sixteen `0x61` bytes. -/
theorem fingerprint_roundtrip_witness :
    certhashToFingerprint (mkCerthashMa (mbEncode (mhEncode 0xd5 (List.replicate 16 0x61)))) =
      .ok (String.mk ("MD5".data ++ ' ' ::
             joinColon ((List.replicate 16 0x61).map
               (fun b => [upHexDigit (b / 16), upHexDigit (b % 16)]))),
           String.mk (catLists ((List.replicate 16 0x61).map (fun b =>
             [hexDigitChar (b / 16), hexDigitChar (b % 16)])))) :=
  fingerprint_roundtrip "md5" "MD5" 0xd5 16 (by decide)
    (List.replicate 16 0x61) (by decide) (by decide)

theorem algTagOf_none {name : String} (h : name ∉ ["md5", "sha2-256", "sha2-512"]) :
    algTagOf name = none := by
  unfold algTagOf
  split
  · exact absurd (by simp) h
  · exact absurd (by simp) h
  · exact absurd (by simp) h
  · rfl

/-- C5: whenever the decoded multihash algorithm name is outside the
allow-list, fingerprint derivation fails with `UnsupportedHashAlgorithm`
carrying exactly that name (the `Except` result carries no partial output);
for names inside the allow-list the display string opens with `MD5`,
`SHA-256` or `SHA-512` respectively. -/
theorem fingerprint_allowlist_rejection (ma : Multiaddr) (v : String) (bytes : List Nat)
    (name : String) (digest : List Nat)
    (hch : certhash ma = .ok v) (hmb : mbDecode v = .ok bytes)
    (hmh : mhDecode? bytes = some (name, digest)) :
    (name ∉ ["md5", "sha2-256", "sha2-512"] →
      certhashToFingerprint ma = .error (.unsupportedHashAlgorithm name)) ∧
    (digest ≠ [] → (∀ b ∈ digest, b < 256) →
      ((name = "md5" → ∃ rest, certhashToFingerprint ma =
          .ok (String.mk ("MD5".data ++ ' ' :: rest),
               String.mk (catLists (digest.map byteHex)))) ∧
       (name = "sha2-256" → ∃ rest, certhashToFingerprint ma =
          .ok (String.mk ("SHA-256".data ++ ' ' :: rest),
               String.mk (catLists (digest.map byteHex)))) ∧
       (name = "sha2-512" → ∃ rest, certhashToFingerprint ma =
          .ok (String.mk ("SHA-512".data ++ ' ' :: rest),
               String.mk (catLists (digest.map byteHex)))))) := by
  constructor
  · intro hout
    unfold certhashToFingerprint
    rw [hch]
    simp only [hmb, hmh, algTagOf_none hout]
  · intro hne hb
    refine ⟨?_, ?_, ?_⟩ <;> intro hn <;> subst hn
    · refine ⟨joinColon (digest.map (fun b => [upHexDigit (b / 16), upHexDigit (b % 16)])), ?_⟩
      have := @certhashToFingerprint_spec ma v bytes "md5" digest "md5".data hch hmb hmh (by decide) hne hb
      rw [this]
      rw [show listUp "md5".data = "MD5".data from by decide]
    · refine ⟨joinColon (digest.map (fun b => [upHexDigit (b / 16), upHexDigit (b % 16)])), ?_⟩
      have := @certhashToFingerprint_spec ma v bytes "sha2-256" digest "sha-256".data hch hmb hmh (by decide) hne hb
      rw [this]
      rw [show listUp "sha-256".data = "SHA-256".data from by decide]
    · refine ⟨joinColon (digest.map (fun b => [upHexDigit (b / 16), upHexDigit (b % 16)])), ?_⟩
      have := @certhashToFingerprint_spec ma v bytes "sha2-512" digest "sha-512".data hch hmb hmh (by decide) hne hb
      rw [this]
      rw [show listUp "sha-512".data = "SHA-512".data from by decide]

/-- C5 witness: a sha1 certhash is rejected with its name, and an md5
certhash maps to the `MD5` display tag. -/
theorem fingerprint_allowlist_rejection_witness :
    certhashToFingerprint maSha1 = .error (.unsupportedHashAlgorithm "sha1") ∧
    ∃ rest, certhashToFingerprint maMd5Small =
      .ok (String.mk ("MD5".data ++ ' ' :: rest),
           String.mk (catLists ([0xab, 0xcd].map byteHex))) := by
  constructor
  · exact (fingerprint_allowlist_rejection maSha1 (mbEncode (mhEncode 0x11 [0xaa, 0xbb]))
      (mhEncode 0x11 [0xaa, 0xbb]) "sha1" [0xaa, 0xbb]
      (by decide) (by decide) (by decide)).1 (by decide)
  · exact ((fingerprint_allowlist_rejection maMd5Small (mbEncode (mhEncode 0xd5 [0xab, 0xcd]))
      (mhEncode 0xd5 [0xab, 0xcd]) "md5" [0xab, 0xcd]
      (by decide) (by decide) (by decide)).2 (by decide) (by decide)).1 rfl

/-- C6: on an address with no certhash tuple, `certhash` fails with
`InappropriateAddress`; on an address whose first certhash tuple carries the
(nonempty) value v, it returns v unmodified — in particular when several
certhash tuples are present the first one wins. -/
theorem certhash_tuple_spec (ma : Multiaddr) :
    (((ma.stringTuples.filter (fun tup => tup.1 = CERTHASH_CODE)).map
        (fun tup => tup.2)) = [] →
      certhash ma = .error (.inappropriateMultiaddr
        ("Couldn't find a certhash component of multiaddr:" ++ ma.toStr))) ∧
    (∀ v rest, ((ma.stringTuples.filter (fun tup => tup.1 = CERTHASH_CODE)).map
        (fun tup => tup.2)) = v :: rest →
      v ≠ "" → certhash ma = .ok v) := by
  constructor
  · intro h
    unfold certhash
    rw [h]
    rfl
  · intro v rest h hv
    unfold certhash
    rw [h]
    simp [hv]

/-- C6 witness: the no-certhash address fails, and the single-certhash
address returns its encoded value untouched. -/
theorem certhash_tuple_spec_witness :
    certhash maNoCerthash = .error (.inappropriateMultiaddr
      ("Couldn't find a certhash component of multiaddr:" ++ maNoCerthash.toStr)) ∧
    certhash maSha256Small = .ok (mbEncode (mhEncode 0x12 [0xab, 0xcd])) :=
  ⟨(certhash_tuple_spec maNoCerthash).1 (by decide),
   (certhash_tuple_spec maSha256Small).2 (mbEncode (mhEncode 0x12 [0xab, 0xcd])) []
     (by decide) (by decide)⟩

/-- C7: the transport filter keeps exactly the addresses whose protocol codes
contain both the WebRTC code and the certhash code and which carry a peer id;
on the four concrete test addresses it returns exactly the second one. -/
theorem filter_dialable_spec :
    (∀ (mas : List Multiaddr) (ma : Multiaddr),
        ma ∈ transportFilter mas ↔ ma ∈ mas ∧ validMa ma = true) ∧
    transportFilter [filterMa1, filterMa2, filterMa3, filterMa4] = [filterMa2] := by
  constructor
  · intro mas ma
    unfold transportFilter
    exact List.mem_filter
  · decide

/-- C1: the prologue builder concatenates `prefix ++ local ++ remote` in
fixed role order without sorting, contradicting its own in-source comment
("sorted in ascending order") and the claim.  With the smaller multihash
`prologueF1` on the local side the output happens to be the ascending
concatenation, but with the roles swapped the output is
`prefix ++ F2 ++ F1`, which differs from `prefix ++ F1 ++ F2`. -/
theorem prologue_fixed_role_order_not_sorted :
    generateNoisePrologue pcF1 maF2 =
      .ok (asciiBytes "libp2p-webrtc-noise:" ++ (prologueF1 ++ prologueF2)) ∧
    generateNoisePrologue pcF2 maF1 =
      .ok (asciiBytes "libp2p-webrtc-noise:" ++ (prologueF2 ++ prologueF1)) ∧
    asciiBytes "libp2p-webrtc-noise:" ++ (prologueF2 ++ prologueF1) ≠
      asciiBytes "libp2p-webrtc-noise:" ++ (prologueF1 ++ prologueF2) := by
  refine ⟨by decide, by decide, by decide⟩

/-- C8: when the first fingerprint of the local certificate reports an
algorithm other than `sha-256` (and reports one at all), the prologue builder
fails with `UnsupportedHashAlgorithm` carrying that algorithm; with
`sha-256` it succeeds and wraps the fingerprint's hex digest bytes in a
sha2-256 multihash placed between the fixed prefix and the remote multihash. -/
theorem prologue_local_algorithm_spec
    (pc : PeerConnectionConfig) (ma : Multiaddr) (cert : RTCCertificate)
    (fpr : RTCFingerprint) (certsRest : List RTCCertificate)
    (fpsRest : List RTCFingerprint) (localFpArray : List Nat) (ch : String)
    (remote : List Nat)
    (hpc : pc.certificates = cert :: certsRest)
    (hfps : cert.fingerprints = fpr :: fpsRest)
    (hhex : hexPairsToBytes? (fpr.value.data.filter (fun c => c ≠ ':')) = some localFpArray)
    (hch : certhash ma = .ok ch) (hmb : mbDecode ch = .ok remote) :
    (fpr.algorithm ≠ "sha-256" → fpr.algorithm ≠ "" →
      generateNoisePrologue pc ma = .error (.unsupportedHashAlgorithm fpr.algorithm)) ∧
    (fpr.algorithm = "sha-256" →
      generateNoisePrologue pc ma =
        .ok (asciiBytes "libp2p-webrtc-noise:" ++ (mhEncode 0x12 localFpArray ++ remote))) := by
  have hbase : generateNoisePrologue pc ma =
      (if fpr.algorithm ≠ "sha-256" then
        .error (.unsupportedHashAlgorithm
          (if fpr.algorithm = "" then "none" else fpr.algorithm))
      else
        .ok (asciiBytes "libp2p-webrtc-noise:" ++ (mhEncode 0x12 localFpArray ++ remote))) := by
    unfold generateNoisePrologue
    rw [hpc]
    simp only [List.length_cons, List.head?_cons, hfps, hhex]
    rw [if_neg (by simp)]
    by_cases halg : fpr.algorithm ≠ "sha-256"
    · rw [if_pos halg, if_pos halg]
    · rw [if_neg halg, if_neg halg]
      simp only [hch, hmb]
  constructor
  · intro h1 h2
    rw [hbase, if_pos h1, if_neg h2]
  · intro h1
    rw [hbase, if_neg (by simp [h1])]

/-- C8 witness: a `sha-384` local fingerprint is rejected with its name; a
`sha-256` one succeeds and multihash-wraps its digest. -/
theorem prologue_local_algorithm_spec_witness :
    generateNoisePrologue
      { certificates := [{ fingerprints := [{ algorithm := "sha-384", value := "00:01" }] }] }
      maF2 = .error (.unsupportedHashAlgorithm "sha-384") ∧
    generateNoisePrologue pcF1 maF2 =
      .ok (asciiBytes "libp2p-webrtc-noise:" ++ (mhEncode 0x12 [0, 1] ++ prologueF2)) := by
  constructor
  · exact (prologue_local_algorithm_spec
      { certificates := [{ fingerprints := [{ algorithm := "sha-384", value := "00:01" }] }] }
      maF2 { fingerprints := [{ algorithm := "sha-384", value := "00:01" }] }
      { algorithm := "sha-384", value := "00:01" } [] [] [0, 1]
      (mbEncode prologueF2) prologueF2 rfl rfl (by decide) (by decide) (by decide)).1
      (by decide) (by decide)
  · exact (prologue_local_algorithm_spec pcF1 maF2
      { fingerprints := [{ algorithm := "sha-256", value := "00:01" }] }
      { algorithm := "sha-256", value := "00:01" } [] [] [0, 1]
      (mbEncode prologueF2) prologueF2 rfl rfl (by decide) (by decide) (by decide)).2 rfl
